import Mathlib

/-!
Shallow embedding of the genetic jazz harmonizer
(`geneticmelodyjazzharmonizer.py` and `metrics.py`).

Python numbers appearing in fitness computations are modelled as exact
rationals; note durations are modelled as integers (every duration in the
source is an `int` literal).  Python exceptions (`ZeroDivisionError`,
`KeyError`, `IndexError`, `ValueError`) are modelled with `Except String`.
The global `random` module is modelled by an explicit random source:
a stream of naturals (used for `random.choice` / `random.randint`) and a
stream of rationals (used for `random.random()` and the uniform draws in
`random.choices`).  All theorems quantify over the source, so every proof
covers every possible sequence of draws.
-/

/-- The frozen dataclass `MelodyData`: notes as (pitch, duration) pairs,
with `duration` and `number_of_bars` computed in `__post_init__`. -/
structure MelodyData where
  notes : List (String × Int)
  duration : Int
  number_of_bars : Int
  deriving Repr, DecidableEq

/-- `MelodyData.__post_init__`: `duration = sum(d for _, d in notes)` and
`number_of_bars = duration // 4` (Python floor division).  No validation is
performed by the source. -/
def MelodyData.make (notes : List (String × Int)) : MelodyData :=
  let dur : Int := notes.foldl (fun acc p => acc + p.2) 0
  { notes := notes, duration := dur, number_of_bars := Int.fdiv dur 4 }

/-- First-match association-list lookup, modelling Python `dict` indexing
over the insertion-ordered key/value pairs. -/
def alistFind {α : Type} (k : String) : List (String × α) → Option α
  | [] => none
  | (k', v) :: rest => if k' = k then some v else alistFind k rest

/-- Python `d[k]`: raises `KeyError` when the key is absent. -/
def dictGet {α : Type} (l : List (String × α)) (k : String) : Except String α :=
  match alistFind k l with
  | some v => .ok v
  | none => .error ("KeyError: " ++ k)

/-- Python `d.get(k, default)`. -/
def dictGetD (l : List (String × ℚ)) (k : String) (d : ℚ) : ℚ :=
  match alistFind k l with
  | some v => v
  | none => d

/-- Membership of the unordered pair `frozenset([a, b])` in a set of
frozensets, each given by one representative ordered pair. -/
def pairMem (a b : String) (l : List (String × String)) : Bool :=
  l.any (fun p => (p.1 = a ∧ p.2 = b) ∨ (p.1 = b ∧ p.2 = a))

/-- Decidable equality for `Except`, so concrete runs can be checked with
`decide`. -/
instance exceptDecEq {ε α : Type} [DecidableEq ε] [DecidableEq α] :
    DecidableEq (Except ε α)
  | .error a, .error b =>
    if h : a = b then .isTrue (by rw [h])
    else .isFalse (by intro hc; cases hc; exact h rfl)
  | .error _, .ok _ => .isFalse (by intro hc; cases hc)
  | .ok _, .error _ => .isFalse (by intro hc; cases hc)
  | .ok a, .ok b =>
    if h : a = b then .isTrue (by rw [h])
    else .isFalse (by intro hc; cases hc; exact h rfl)

/-! ## The nine metrics (`metrics.py`) -/

/-- Inner `while` loop of `ChordMelodyCongruence.calculate`: consumes melody
notes while `bar_duration < 4`, awarding each note's duration when
`pitch[0]` is among the current chord's notes.  `pitch[0]` on an empty
string raises `IndexError`. -/
def congruenceInner (chordNotes : List String) :
    List (String × Int) → Int → Int → Except String (Int × List (String × Int))
  | notes, barDur, score =>
    if barDur < 4 then
      match notes with
      | [] => .ok (score, [])
      | (pitch, dur) :: rest =>
        if pitch = "" then .error "IndexError: string index out of range"
        else congruenceInner chordNotes rest (barDur + dur)
          (if pitch.take 1 ∈ chordNotes then score + dur else score)
    else .ok (score, notes)

/-- Outer `for chord in chord_sequence` loop of
`ChordMelodyCongruence.calculate`. -/
def congruenceOuter (mappings : List (String × List String)) :
    List String → List (String × Int) → Int → Except String Int
  | [], _, score => .ok score
  | chord :: rest, notes, score => do
    let chordNotes ← dictGet mappings chord
    let (score', notes') ← congruenceInner chordNotes notes 0 score
    congruenceOuter mappings rest notes' score'

/-- `ChordMelodyCongruence.calculate`: the accumulate-until-4 walk, then
`score / melody.duration` (a `ZeroDivisionError` when the duration is 0). -/
def chordMelodyCongruence (melody : MelodyData)
    (mappings : List (String × List String)) (seq : List String) :
    Except String ℚ := do
  let score ← congruenceOuter mappings seq melody.notes 0
  if melody.duration = 0 then .error "ZeroDivisionError: division by zero"
  else .ok ((score : ℚ) / (melody.duration : ℚ))

/-- `ChordVariety.calculate`: `len(set(seq)) / len(chord_mappings)`. -/
def chordVariety (mappings : List (String × List String)) (seq : List String) :
    Except String ℚ :=
  let unique : ℕ := seq.dedup.length
  let total : ℕ := mappings.length
  if total = 0 then .error "ZeroDivisionError: division by zero"
  else .ok ((unique : ℚ) / (total : ℚ))

/-- Loop body of `HarmonicFlow.calculate`. -/
def harmonicFlowLoop (transitions : List (String × List String))
    (seq : List String) (cts : ℚ) : List ℕ → ℚ → Except String ℚ
  | [], score => .ok score
  | i :: rest, score => do
    let prefs ← dictGet transitions (seq.getD i "")
    harmonicFlowLoop transitions seq cts rest
      (if seq.getD (i + 1) "" ∈ prefs then score + cts else score)

/-- `HarmonicFlow.calculate`: `1/(len-1)` per preferred transition; the
normalizer is computed before the loop, so `len = 1` divides by zero. -/
def harmonicFlow (transitions : List (String × List String))
    (seq : List String) : Except String ℚ :=
  let tt : Int := (seq.length : Int) - 1
  if tt = 0 then .error "ZeroDivisionError: division by zero"
  else harmonicFlowLoop transitions seq (1 / (tt : ℚ)) (List.range tt.toNat) 0

/-- `FunctionalHarmony.calculate`: three 1/3-weight rules; `seq[0]` on an
empty list raises `IndexError`. -/
def functionalHarmony (seq : List String) : Except String ℚ :=
  match seq with
  | [] => .error "IndexError: list index out of range"
  | c0 :: _ =>
    .ok ((if c0 ∈ ["Cmaj7", "Fmaj7"] then (1 : ℚ) / 3 else 0)
      + (if seq.getLastD "" ∈ ["Cmaj7"] then (1 : ℚ) / 3 else 0)
      + (if "Fmaj7" ∈ seq ∧ "G7" ∈ seq then (1 : ℚ) / 3 else 0))

/-- Loop body of `VoiceLeading.calculate`: for each transition, every note
of the current chord that also occurs in the next chord adds
`shared_note_score`. -/
def voiceLeadingLoop (mappings : List (String × List String))
    (seq : List String) (sns : ℚ) : List ℕ → ℚ → Except String ℚ
  | [], score => .ok score
  | i :: rest, score => do
    let cur ← dictGet mappings (seq.getD i "")
    let nxt ← dictGet mappings (seq.getD (i + 1) "")
    voiceLeadingLoop mappings seq sns rest
      (cur.foldl (fun sc note => if note ∈ nxt then sc + sns else sc) score)

/-- `VoiceLeading.calculate`: `1/(4*(len-1))` per shared note. -/
def voiceLeading (mappings : List (String × List String))
    (seq : List String) : Except String ℚ :=
  let tt : Int := (seq.length : Int) - 1
  if 4 * tt = 0 then .error "ZeroDivisionError: division by zero"
  else voiceLeadingLoop mappings seq (1 / ((4 * tt : Int) : ℚ))
    (List.range tt.toNat) 0

/-- `ChordRepetitions.calculate`: starts at 1, subtracts `1/(len-2)` for
each `i < len-2` with `seq[i] = seq[i+1]` and for each such `i` with
`seq[i] = seq[i+2]`.  The loop bound is `len-2`, so the final adjacent pair
is never examined.  `len = 2` divides by zero. -/
def chordRepetitions (seq : List String) : Except String ℚ :=
  let tt : Int := (seq.length : Int) - 2
  if tt = 0 then .error "ZeroDivisionError: division by zero"
  else
    let pen : ℚ := -1 / (tt : ℚ)
    .ok (List.foldl (fun score i =>
        let s1 := if seq.getD i "" = seq.getD (i + 1) "" then score + pen else score
        if seq.getD i "" = seq.getD (i + 2) "" then s1 + pen else s1)
      1 (List.range tt.toNat))

/-- `FunctionalProgressions.calculate`: `3/(len-2)` for each 3-window that
is literally a member of the common-progression list. -/
def functionalProgressions (progs : List (List String)) (seq : List String) :
    Except String ℚ :=
  let tt : Int := (seq.length : Int) - 2
  if tt = 0 then .error "ZeroDivisionError: division by zero"
  else
    let cps : ℚ := 3 / (tt : ℚ)
    .ok (List.foldl (fun score i =>
        if (seq.drop i).take 3 ∈ progs then score + cps else score)
      0 (List.range tt.toNat))

/-- The hard-coded non-diatonic set of `NonDiatonicChords.calculate`,
exactly as written in the source (note the mojibake sixth entry). -/
def nonDiatonicSet : List String :=
  ["C7", "D7", "E7", "A7", "Dm7b5", "EÂº7", "Gmin7"]

/-- `NonDiatonicChords.calculate`: `1/len` per chord in the hard-coded
set. -/
def nonDiatonicChords (seq : List String) : Except String ℚ :=
  if seq.length = 0 then .error "ZeroDivisionError: division by zero"
  else
    let ndcs : ℚ := 1 / (seq.length : ℚ)
    .ok (seq.foldl (fun score c =>
        if c ∈ nonDiatonicSet then score + ndcs else score) 0)

/-- `ParallelFifths.calculate`: starts at 1, subtracts `1/(len-1)` for each
adjacent unordered pair in the configured parallel-fifth set. -/
def parallelFifths (pfs : List (String × String)) (seq : List String) :
    Except String ℚ :=
  let tt : Int := (seq.length : Int) - 1
  if tt = 0 then .error "ZeroDivisionError: division by zero"
  else
    let pen : ℚ := -1 / (tt : ℚ)
    .ok (List.foldl (fun score i =>
        if pairMem (seq.getD i "") (seq.getD (i + 1) "") pfs then score + pen
        else score)
      1 (List.range tt.toNat))

/-! ## Fitness evaluator (`FitnessEvaluator`) -/

/-- The full fitness configuration plus GA hyperparameters, i.e. the data
held by `FitnessEvaluator` and `GeneticMelodyHarmonizer` together. -/
structure Config where
  melody : MelodyData
  chordMappings : List (String × List String)
  weights : List (String × ℚ)
  preferredTransitions : List (String × List String)
  chordsWithParallelFifths : List (String × String)
  commonProgressions : List (List String)
  chords : List String
  populationSize : ℕ
  mutationRate : ℚ

/-- The `metric_classes` list of `FitnessEvaluator.evaluate`, in source
order, paired with each class name used for the weight lookup. -/
def metricList (cfg : Config) :
    List (String × (List String → Except String ℚ)) :=
  [("ChordMelodyCongruence", chordMelodyCongruence cfg.melody cfg.chordMappings),
   ("ChordVariety", chordVariety cfg.chordMappings),
   ("HarmonicFlow", harmonicFlow cfg.preferredTransitions),
   ("FunctionalHarmony", functionalHarmony),
   ("VoiceLeading", voiceLeading cfg.chordMappings),
   ("ChordRepetitions", chordRepetitions),
   ("FunctionalProgressions", functionalProgressions cfg.commonProgressions),
   ("NonDiatonicChords", nonDiatonicChords),
   ("ParallelFifths", parallelFifths cfg.chordsWithParallelFifths)]

/-- The accumulation loop of `FitnessEvaluator.evaluate`:
`total_score += metric_score * weights.get(name, 0)`. -/
def evalLoop (weights : List (String × ℚ)) (seq : List String) :
    List (String × (List String → Except String ℚ)) → ℚ → Except String ℚ
  | [], total => .ok total
  | (nm, f) :: rest, total => do
    let s ← f seq
    evalLoop weights seq rest (total + s * dictGetD weights nm 0)

/-- `FitnessEvaluator.evaluate`. -/
def evaluate (cfg : Config) (seq : List String) : Except String ℚ :=
  evalLoop cfg.weights seq (metricList cfg) 0

/-- The scan of Python `max(chord_sequences, key=self.evaluate)` after the
first element: keep the current best, replace on a strictly larger key. -/
def maxLoop (f : List String → Except String ℚ) :
    List (List String) → List String → ℚ → Except String (List String)
  | [], best, _ => .ok best
  | y :: ys, best, bv => do
    let v ← f y
    if bv < v then maxLoop f ys y v else maxLoop f ys best bv

/-- `FitnessEvaluator.get_chord_sequence_with_highest_fitness`, i.e.
Python `max` with a key function (first maximum wins; empty input raises
`ValueError`). -/
def maxByKey (f : List String → Except String ℚ) :
    List (List String) → Except String (List String)
  | [] => .error "ValueError: max() arg is an empty sequence"
  | x :: xs => do
    let v ← f x
    maxLoop f xs x v

/-! ## Random primitives (`random` module, CPython semantics) -/

/-- An explicit random source: `nats` feeds `random.choice`/`random.randint`
(an arbitrary stream of naturals, reduced modulo the range size), `fracs`
feeds `random.random()` and the uniform draws inside `random.choices`. -/
structure RSource where
  nats : ℕ → ℕ
  fracs : ℕ → ℚ

/-- `random.randint(lo, hi)`: uniform integer in `[lo, hi]`; raises
`ValueError` when the range is empty. -/
def randintI (src : RSource) (pos : ℕ) (lo hi : Int) :
    Except String (Int × ℕ) :=
  if hi < lo then .error "ValueError: empty range for randrange"
  else .ok (lo + (src.nats pos : Int) % (hi - lo + 1), pos + 1)

/-- `random.choice(l)`: raises `IndexError` on an empty sequence. -/
def randomChoice (src : RSource) (pos : ℕ) (l : List String) :
    Except String (String × ℕ) :=
  if l.isEmpty then .error "IndexError: Cannot choose from an empty sequence"
  else .ok (l.getD (src.nats pos % l.length) "", pos + 1)

/-- `itertools.accumulate` with running sum `acc`. -/
def accAux (acc : ℚ) : List ℚ → List ℚ
  | [] => []
  | x :: xs => (acc + x) :: accAux (acc + x) xs

/-- `list(itertools.accumulate(weights))`. -/
def accumulate (l : List ℚ) : List ℚ := accAux 0 l

/-- The `while lo < hi` loop of `bisect.bisect_right(a, x, lo, hi)`, with an
explicit fuel so that the recursion is structural.  Each iteration shrinks
`hi - lo` by at least one, so fuel `hi - lo` is never exhausted and the
function computes exactly the CPython loop. -/
def bisectGo (a : List ℚ) (x : ℚ) : ℕ → ℕ → ℕ → ℕ
  | 0, lo, _ => lo
  | fuel + 1, lo, hi =>
    if lo < hi then
      if x < a.getD ((lo + hi) / 2) 0 then bisectGo a x fuel lo ((lo + hi) / 2)
      else bisectGo a x fuel ((lo + hi) / 2 + 1) hi
    else lo

/-- `bisect.bisect_right(a, x, lo, hi)`, the binary search used by
`random.choices`. -/
def bisectRight (a : List ℚ) (x : ℚ) (lo hi : ℕ) : ℕ :=
  bisectGo a x (hi - lo) lo hi

/-- The `k` weighted draws of `random.choices`: each consumes one uniform
draw `u` and selects `population[bisect(cum_weights, u * total, 0, n-1)]`. -/
def choicesDraw (src : RSource) (pop : List (List String)) (cum : List ℚ)
    (total : ℚ) (hi : ℕ) : ℕ → ℕ → Except String (List (List String) × ℕ)
  | 0, pos => .ok ([], pos)
  | k + 1, pos =>
    match pop.get? (bisectRight cum (src.fracs pos * total) 0 hi) with
    | none => .error "IndexError: list index out of range"
    | some x => do
      let (rest, pos') ← choicesDraw src pop cum total hi k (pos + 1)
      .ok (x :: rest, pos')

/-- `random.choices(population, weights=w, k=k)` per CPython (3.9 and
later): builds cumulative weights, checks the length, reads the total from
the last cumulative weight (`IndexError` on an empty population), raises
`ValueError` when the total is not positive, then performs `k` draws. -/
def randomChoicesW (src : RSource) (pos : ℕ) (pop : List (List String))
    (ws : List ℚ) (k : ℕ) : Except String (List (List String) × ℕ) :=
  if (accumulate ws).length ≠ pop.length then
    .error "ValueError: The number of weights does not match the population"
  else
    match (accumulate ws).getLast? with
    | none => .error "IndexError: list index out of range"
    | some total =>
      if total ≤ 0 then
        .error "ValueError: Total of weights must be greater than zero"
      else choicesDraw src pop (accumulate ws) total (pop.length - 1) k pos

/-! ## Genetic search engine (`GeneticMelodyHarmonizer`) -/

/-- Draw `n` chords sequentially with `random.choice`. -/
def randomChoiceList (src : RSource) (chords : List String) :
    ℕ → ℕ → Except String (List String × ℕ)
  | 0, pos => .ok ([], pos)
  | n + 1, pos => do
    let (c, pos') ← randomChoice src pos chords
    let (rest, pos'') ← randomChoiceList src chords n pos'
    .ok (c :: rest, pos'')

/-- `_generate_random_chord_sequence`: `2 * number_of_bars` independent
uniform chords (an empty Python `range` when the bar count is negative). -/
def genRandomChordSequence (cfg : Config) (src : RSource) (pos : ℕ) :
    Except String (List String × ℕ) :=
  randomChoiceList src cfg.chords (2 * cfg.melody.number_of_bars).toNat pos

/-- `_initialise_population`: `population_size` random sequences. -/
def initialPopulation (cfg : Config) (src : RSource) :
    ℕ → ℕ → Except String (List (List String) × ℕ)
  | 0, pos => .ok ([], pos)
  | n + 1, pos => do
    let (s, pos') ← genRandomChordSequence cfg src pos
    let (rest, pos'') ← initialPopulation cfg src n pos'
    .ok (s :: rest, pos'')

/-- The fitness list `[evaluate(seq) for seq in population]`. -/
def evalAll (cfg : Config) : List (List String) → Except String (List ℚ)
  | [] => .ok []
  | s :: rest => do
    let v ← evaluate cfg s
    let vs ← evalAll cfg rest
    .ok (v :: vs)

/-- `_select_parents`: fitness-weighted sampling with replacement,
`k = population_size`. -/
def selectParents (cfg : Config) (src : RSource) (pos : ℕ)
    (pop : List (List String)) : Except String (List (List String) × ℕ) := do
  let fvs ← evalAll cfg pop
  randomChoicesW src pos pop fvs cfg.populationSize

/-- `_crossover`: one-point crossover at `cut = randint(1, len(parent1)-1)`,
child `parent1[:cut] + parent2[cut:]`. -/
def crossover (src : RSource) (pos : ℕ) (p1 p2 : List String) :
    Except String (List String × ℕ) := do
  let (cut, pos') ← randintI src pos 1 ((p1.length : Int) - 1)
  .ok (p1.take cut.toNat ++ p2.drop cut.toNat, pos')

/-- `_mutate`: with probability `mutation_rate` replace the chord at
`randint(0, len-1)` by a fresh `random.choice` from the vocabulary. -/
def mutate (cfg : Config) (src : RSource) (pos : ℕ) (seq : List String) :
    Except String (List String × ℕ) :=
  if src.fracs pos < cfg.mutationRate then do
    let (idx, pos') ← randintI src (pos + 1) 0 ((seq.length : Int) - 1)
    let (c, pos'') ← randomChoice src pos' cfg.chords
    .ok (seq.set idx.toNat c, pos'')
  else .ok (seq, pos + 1)

/-- The body of the `for i in range(0, population_size, 2)` loop of
`_create_new_population`, iterating over the explicit index list:
`parents[i]` and `parents[i+1]` are indexed (raising `IndexError` when
absent), crossed over both ways, each child mutated, both appended. -/
def newPopLoop (cfg : Config) (src : RSource) (parents : List (List String)) :
    List ℕ → ℕ → List (List String) →
    Except String (List (List String) × ℕ)
  | [], pos, acc => .ok (acc, pos)
  | i :: idxs, pos, acc =>
    match parents.get? i with
    | none => .error "IndexError: list index out of range"
    | some p1 =>
      match parents.get? (i + 1) with
      | none => .error "IndexError: list index out of range"
      | some p2 => do
        let (c1, pos1) ← crossover src pos p1 p2
        let (c2, pos2) ← crossover src pos1 p2 p1
        let (m1, pos3) ← mutate cfg src pos2 c1
        let (m2, pos4) ← mutate cfg src pos3 c2
        newPopLoop cfg src parents idxs pos4 (acc ++ [m1, m2])

/-- `_create_new_population`: the loop above over
`range(0, population_size, 2)`, which has `⌈population_size / 2⌉`
elements. -/
def createNewPopulation (cfg : Config) (src : RSource)
    (parents : List (List String)) (pos : ℕ) :
    Except String (List (List String) × ℕ) :=
  newPopLoop cfg src parents
    (List.range' 0 ((cfg.populationSize + 1) / 2) 2) pos []

/-- The `for _ in range(generations)` loop of `generate`. -/
def generationLoop (cfg : Config) (src : RSource) :
    ℕ → List (List String) → ℕ → Except String (List (List String) × ℕ)
  | 0, pop, pos => .ok (pop, pos)
  | g + 1, pop, pos => do
    let (parents, pos1) ← selectParents cfg src pos pop
    let (newPop, pos2) ← createNewPopulation cfg src parents pos1
    generationLoop cfg src g newPop pos2

/-- `GeneticMelodyHarmonizer.generate`: initialise, evolve for the given
number of generations, return the fittest individual of the final
population. -/
def generate (cfg : Config) (src : RSource) (generations : ℕ) :
    Except String (List String) := do
  let (pop0, pos0) ← initialPopulation cfg src cfg.populationSize 0
  let (finalPop, _) ← generationLoop cfg src generations pop0 pos0
  maxByKey (evaluate cfg) finalPop

/-! ## Default configuration data (the literals of `main`) -/

/-- The `chord_mappings` dictionary of `main`. -/
def defaultChordMappings : List (String × List String) :=
  [("Cmaj7", ["C", "E", "G", "B"]),
   ("Dm7", ["D", "F", "A", "C"]),
   ("Em7", ["E", "G", "B", "D"]),
   ("Fmaj7", ["F", "A", "C", "E"]),
   ("G7", ["G", "B", "D", "F"]),
   ("Am7", ["A", "C", "E", "G"]),
   ("Bm7b5", ["B", "D", "F", "A"]),
   ("C7", ["C", "E", "G", "Bb"]),
   ("D7", ["D", "F#", "A", "C"]),
   ("E7", ["E", "G#", "B", "D"]),
   ("A7", ["A", "C#", "E", "G"]),
   ("Dm7b5", ["D", "F", "Ab", "C"]),
   ("Eº7", ["E", "G", "Bb", "Db"]),
   ("Gmin7", ["G", "Bb", "D", "F"])]

/-- The `weights` dictionary of `main`. -/
def defaultWeights : List (String × ℚ) :=
  [("ChordMelodyCongruence", 24 / 100),
   ("ChordVariety", 8 / 100),
   ("HarmonicFlow", 18 / 100),
   ("FunctionalHarmony", 10 / 100),
   ("VoiceLeading", 2 / 100),
   ("ChordRepetitions", 6 / 100),
   ("NonDiatonicChords", 6 / 100),
   ("FunctionalProgressions", 25 / 100),
   ("ParallelFifths", 1 / 100)]

/-- The `preferred_transitions` dictionary of `main`. -/
def defaultPreferredTransitions : List (String × List String) :=
  [("Cmaj7", ["Em7", "Fmaj7", "Am7", "C7", "E7", "A7", "Eº7"]),
   ("Dm7", ["G7", "Am7", "Bm7b5", "D7"]),
   ("Em7", ["Am7", "A7", "Eº7", "Gmin7"]),
   ("Fmaj7", ["Cmaj7", "Em7", "G7", "Bm7b5", "D7", "E7", "Dm7b5"]),
   ("G7", ["Cmaj7", "Am7", "Em7"]),
   ("Am7", ["Dm7", "Fmaj7", "Gmin7", "Dm7b5"]),
   ("Bm7b5", ["Em7", "E7"]),
   ("C7", ["Fmaj7"]),
   ("D7", ["G7"]),
   ("E7", ["Am7"]),
   ("A7", ["Dm7"]),
   ("Dm7b5", ["Cmaj7", "Em7"]),
   ("Eº7", ["Dm7", "Fmaj7"]),
   ("Gmin7", ["C7", "Eº7"])]

/-- The `chords_with_parallel_fifths` set of `main`, one representative
ordered pair per frozenset. -/
def defaultParallelFifths : List (String × String) :=
  [("Cmaj7", "Dm7"), ("Cmaj7", "D7"), ("Dm7", "Em7"), ("Dm7", "E7"),
   ("Em7", "D7"), ("Am7", "Bm7b5"), ("Bm7b5", "Cmaj7"), ("Bm7b5", "C7"),
   ("D7", "E7")]

/-- The `common_progressions` list of `main`. -/
def defaultCommonProgressions : List (List String) :=
  [["Dm7", "G7", "Cmaj7"],
   ["Fmaj7", "Dm7b5", "Cmaj7"],
   ["Em7", "A7", "Dm7"],
   ["Cmaj7", "Eº7", "Dm7"],
   ["Fmaj7", "Bm7b5", "Em7"],
   ["Fmaj7", "Bm7b5", "E7"],
   ["Gmin7", "C7", "Fmaj7"],
   ["Am7", "D7", "G7"],
   ["Am7", "Dm7", "G7"],
   ["Bm7b5", "E7", "Am7"],
   ["Bm7b5", "Em7", "Am7"]]

/-- A fully deterministic random source: every draw is 0. -/
def srcZero : RSource := { nats := fun _ => 0, fracs := fun _ => 0 }

/-- A one-bar melody: four quarter notes (the scenario of claim C2). -/
def melodyOneBar : MelodyData :=
  MelodyData.make [("C5", 1), ("C5", 1), ("C5", 1), ("C5", 1)]

/-- A two-bar melody: two whole notes. -/
def melodyTwoBars : MelodyData := MelodyData.make [("C5", 4), ("C5", 4)]

/-- The default configuration of `main` restricted to a one-bar melody,
with a small population. -/
def cfgOneBar : Config :=
  { melody := melodyOneBar
    chordMappings := defaultChordMappings
    weights := defaultWeights
    preferredTransitions := defaultPreferredTransitions
    chordsWithParallelFifths := defaultParallelFifths
    commonProgressions := defaultCommonProgressions
    chords := defaultChordMappings.map Prod.fst
    populationSize := 2
    mutationRate := 5 / 100 }

/-- A minimal single-chord configuration over a two-bar melody whose only
weighted metric is `ChordVariety` (weight 1), so every individual has
fitness 1. -/
def cfgTiny : Config :=
  { melody := melodyTwoBars
    chordMappings := [("Cmaj7", ["C", "E", "G", "B"])]
    weights := [("ChordVariety", 1)]
    preferredTransitions := [("Cmaj7", [])]
    chordsWithParallelFifths := []
    commonProgressions := []
    chords := ["Cmaj7"]
    populationSize := 2
    mutationRate := 0 }

/-- `cfgTiny` with an odd population size (the scenario of claim C4). -/
def cfgOddPop : Config :=
  { cfgTiny with populationSize := 3 }

/-- `cfgTiny` with an empty weight mapping, so every individual has
fitness 0 (the scenario of claims C3 and C7). -/
def cfgZeroWeights : Config :=
  { cfgTiny with weights := [] }


/-! ## Basic lemmas -/

@[simp]
theorem ebind_ok {ε α β : Type} (a : α) (f : α → Except ε β) :
    (Except.ok a : Except ε α) >>= f = f a := rfl

@[simp]
theorem ebind_error {ε α β : Type} (e : ε) (f : α → Except ε β) :
    (Except.error e : Except ε α) >>= f = Except.error e := rfl

@[simp]
theorem isOk_error {ε α : Type} (e : ε) :
    (Except.error e : Except ε α).isOk = false := rfl

@[simp]
theorem isOk_ok {ε α : Type} (a : α) :
    (Except.ok a : Except ε α).isOk = true := rfl

theorem randintI_ok {src : RSource} {pos : ℕ} {lo hi v : Int} {pos' : ℕ}
    (h : randintI src pos lo hi = .ok (v, pos')) : lo ≤ v ∧ v ≤ hi := by
  unfold randintI at h
  split at h
  · exact absurd h (by simp)
  · rename_i hlt
    simp only [Except.ok.injEq, Prod.mk.injEq] at h
    obtain ⟨h1, h2⟩ := h
    have hpos : (0 : Int) < hi - lo + 1 := by omega
    have e1 : 0 ≤ (src.nats pos : Int) % (hi - lo + 1) :=
      Int.emod_nonneg _ (by omega)
    have e2 : (src.nats pos : Int) % (hi - lo + 1) < hi - lo + 1 :=
      Int.emod_lt_of_pos _ hpos
    omega

theorem randintI_isOk {src : RSource} {pos : ℕ} {lo hi : Int} (h : lo ≤ hi) :
    ∃ v pos', randintI src pos lo hi = .ok (v, pos') ∧ lo ≤ v ∧ v ≤ hi := by
  refine ⟨lo + (src.nats pos : Int) % (hi - lo + 1), pos + 1, ?_, ?_⟩
  · unfold randintI
    rw [if_neg (by omega)]
  · have hpos : (0 : Int) < hi - lo + 1 := by omega
    have e1 : 0 ≤ (src.nats pos : Int) % (hi - lo + 1) :=
      Int.emod_nonneg _ (by omega)
    have e2 : (src.nats pos : Int) % (hi - lo + 1) < hi - lo + 1 :=
      Int.emod_lt_of_pos _ hpos
    omega

theorem randomChoice_ok {src : RSource} {pos : ℕ} {l : List String}
    {c : String} {pos' : ℕ} (h : randomChoice src pos l = .ok (c, pos')) :
    c ∈ l := by
  unfold randomChoice at h
  split at h
  · exact absurd h (by simp)
  · rename_i hne
    simp only [Except.ok.injEq, Prod.mk.injEq] at h
    have hc : c = l.getD (src.nats pos % l.length) "" := h.1.symm
    have hlen : 0 < l.length := by
      cases l with
      | nil => simp [List.isEmpty] at hne
      | cons a as => simp
    have hidx : src.nats pos % l.length < l.length := Nat.mod_lt _ hlen
    rw [hc, List.getD_eq_getElem l "" hidx]
    exact List.getElem_mem hidx

theorem randomChoice_isOk {src : RSource} {pos : ℕ} {l : List String}
    (h : l ≠ []) : ∃ c pos', randomChoice src pos l = .ok (c, pos') ∧ c ∈ l := by
  have hne : l.isEmpty = false := by
    cases l with
    | nil => exact absurd rfl h
    | cons a as => rfl
  refine ⟨l.getD (src.nats pos % l.length) "", pos + 1, ?_, ?_⟩
  · unfold randomChoice
    rw [hne]
    rfl
  · have hlen : 0 < l.length := by
      cases l with
      | nil => exact absurd rfl h
      | cons a as => simp
    have hidx : src.nats pos % l.length < l.length := Nat.mod_lt _ hlen
    rw [List.getD_eq_getElem l "" hidx]
    exact List.getElem_mem hidx

theorem crossover_ok_length {src : RSource} {pos : ℕ} {p1 p2 c : List String}
    {pos' : ℕ} (hl : p1.length = p2.length)
    (h : crossover src pos p1 p2 = .ok (c, pos')) : c.length = p1.length := by
  unfold crossover at h
  cases hr : randintI src pos 1 ((p1.length : Int) - 1) with
  | error e => rw [hr] at h; exact absurd h (by simp)
  | ok vp =>
    obtain ⟨cut, pos1⟩ := vp
    obtain ⟨hb1, hb2⟩ := randintI_ok hr
    rw [hr] at h
    simp only [ebind_ok, Except.ok.injEq, Prod.mk.injEq] at h
    have hc : c = p1.take cut.toNat ++ p2.drop cut.toNat := h.1.symm
    have hcut1 : 1 ≤ cut.toNat := by omega
    have hcut2 : cut.toNat ≤ p1.length - 1 := by omega
    rw [hc]
    simp only [List.length_append, List.length_take, List.length_drop]
    omega

theorem crossover_isOk {src : RSource} {pos : ℕ} (p1 p2 : List String)
    (h : 2 ≤ p1.length) :
    ∃ c pos', crossover src pos p1 p2 = .ok (c, pos') := by
  obtain ⟨v, pos', hok, _, _⟩ :=
    @randintI_isOk src pos 1 ((p1.length : Int) - 1) (by omega)
  exact ⟨p1.take v.toNat ++ p2.drop v.toNat, pos', by
    unfold crossover
    rw [hok]
    rfl⟩

theorem mutate_ok_length {cfg : Config} {src : RSource} {pos : ℕ}
    {s m : List String} {pos' : ℕ}
    (h : mutate cfg src pos s = .ok (m, pos')) : m.length = s.length := by
  unfold mutate at h
  split at h
  · cases hr : randintI src (pos + 1) 0 ((s.length : Int) - 1) with
    | error e => rw [hr] at h; exact absurd h (by simp)
    | ok vp =>
      obtain ⟨idx, pos1⟩ := vp
      rw [hr] at h
      simp only [ebind_ok] at h
      cases hc : randomChoice src pos1 cfg.chords with
      | error e => rw [hc] at h; exact absurd h (by simp)
      | ok cp =>
        obtain ⟨ch, pos2⟩ := cp
        rw [hc] at h
        simp only [ebind_ok, Except.ok.injEq, Prod.mk.injEq] at h
        rw [← h.1]
        exact List.length_set s idx.toNat ch
  · simp only [Except.ok.injEq, Prod.mk.injEq] at h
    rw [← h.1]

theorem mutate_isOk {cfg : Config} {src : RSource} {pos : ℕ}
    (s : List String) (hs : 1 ≤ s.length) (hch : cfg.chords ≠ []) :
    ∃ m pos', mutate cfg src pos s = .ok (m, pos') := by
  unfold mutate
  split
  · obtain ⟨v, pos1, hok, _, _⟩ :=
      @randintI_isOk src (pos + 1) 0 ((s.length : Int) - 1) (by omega)
    obtain ⟨ch, pos2, hok2, _⟩ := @randomChoice_isOk src pos1 _ hch
    exact ⟨s.set v.toNat ch, pos2, by rw [hok]; simp only [ebind_ok]; rw [hok2]; rfl⟩
  · exact ⟨s, pos + 1, rfl⟩

theorem choicesDraw_ok {src : RSource} {pop : List (List String)}
    {cum : List ℚ} {total : ℚ} {hi : ℕ} :
    ∀ {k pos res pos'},
      choicesDraw src pop cum total hi k pos = .ok (res, pos') →
      res.length = k ∧ ∀ x ∈ res, x ∈ pop := by
  intro k
  induction k with
  | zero =>
    intro pos res pos' h
    simp only [choicesDraw, Except.ok.injEq, Prod.mk.injEq] at h
    rw [← h.1]
    exact ⟨rfl, by intro x hx; exact absurd hx (by simp)⟩
  | succ n ih =>
    intro pos res pos' h
    unfold choicesDraw at h
    cases hg : pop.get? (bisectRight cum (src.fracs pos * total) 0 hi) with
    | none => rw [hg] at h; exact absurd h (by simp)
    | some x =>
      rw [hg] at h
      cases hr : choicesDraw src pop cum total hi n (pos + 1) with
      | error e => rw [hr] at h; exact absurd h (by simp)
      | ok rp =>
        obtain ⟨rest, pos1⟩ := rp
        rw [hr] at h
        simp only [ebind_ok, Except.ok.injEq, Prod.mk.injEq] at h
        obtain ⟨hlen, hmem⟩ := ih hr
        rw [← h.1]
        refine ⟨by simp [hlen], ?_⟩
        intro y hy
        rcases List.mem_cons.mp hy with hy | hy
        · rw [hy]; exact List.get?_mem hg
        · exact hmem y hy

theorem randomChoicesW_ok {src : RSource} {pos : ℕ} {pop : List (List String)}
    {ws : List ℚ} {k : ℕ} {res : List (List String)} {pos' : ℕ}
    (h : randomChoicesW src pos pop ws k = .ok (res, pos')) :
    res.length = k ∧ ∀ x ∈ res, x ∈ pop := by
  unfold randomChoicesW at h
  split at h
  · exact absurd h (by simp)
  · split at h
    · exact absurd h (by simp)
    · split at h
      · exact absurd h (by simp)
      · exact choicesDraw_ok h

theorem evalAll_ok_length {cfg : Config} :
    ∀ {pop : List (List String)} {fvs : List ℚ},
      evalAll cfg pop = .ok fvs → fvs.length = pop.length := by
  intro pop
  induction pop with
  | nil =>
    intro fvs h
    simp only [evalAll, Except.ok.injEq] at h
    rw [← h]
    rfl
  | cons s rest ih =>
    intro fvs h
    unfold evalAll at h
    cases hv : evaluate cfg s with
    | error e => rw [hv] at h; exact absurd h (by simp)
    | ok v =>
      rw [hv] at h
      cases hr : evalAll cfg rest with
      | error e => rw [hr] at h; exact absurd h (by simp)
      | ok vs =>
        rw [hr] at h
        simp only [ebind_ok, Except.ok.injEq] at h
        rw [← h]
        simp [ih hr]

theorem selectParents_ok {cfg : Config} {src : RSource} {pos : ℕ}
    {pop parents : List (List String)} {pos' : ℕ}
    (h : selectParents cfg src pos pop = .ok (parents, pos')) :
    parents.length = cfg.populationSize ∧ ∀ x ∈ parents, x ∈ pop := by
  unfold selectParents at h
  cases hv : evalAll cfg pop with
  | error e => rw [hv] at h; exact absurd h (by simp)
  | ok fvs =>
    rw [hv] at h
    simp only [ebind_ok] at h
    exact randomChoicesW_ok h

theorem newPopLoop_ok {cfg : Config} {src : RSource}
    {parents : List (List String)} {L : ℕ}
    (hpar : ∀ p ∈ parents, p.length = L) :
    ∀ {idxs : List ℕ} {pos : ℕ} {acc res : List (List String)} {pos' : ℕ},
      (∀ a ∈ acc, a.length = L) →
      newPopLoop cfg src parents idxs pos acc = .ok (res, pos') →
      res.length = acc.length + 2 * idxs.length ∧ ∀ s ∈ res, s.length = L := by
  intro idxs
  induction idxs with
  | nil =>
    intro pos acc res pos' hacc h
    simp only [newPopLoop, Except.ok.injEq, Prod.mk.injEq] at h
    rw [← h.1]
    exact ⟨by simp, hacc⟩
  | cons i rest ih =>
    intro pos acc res pos' hacc h
    unfold newPopLoop at h
    cases hg1 : parents.get? i with
    | none => rw [hg1] at h; exact absurd h (by simp)
    | some p1 =>
      rw [hg1] at h
      cases hg2 : parents.get? (i + 1) with
      | none => rw [hg2] at h; exact absurd h (by simp)
      | some p2 =>
        rw [hg2] at h
        dsimp only at h
        have hp1 : p1.length = L := hpar p1 (List.get?_mem hg1)
        have hp2 : p2.length = L := hpar p2 (List.get?_mem hg2)
        cases hc1 : crossover src pos p1 p2 with
        | error e => rw [hc1] at h; exact absurd h (by simp)
        | ok c1p =>
          obtain ⟨c1, pos1⟩ := c1p
          rw [hc1] at h
          simp only [ebind_ok] at h
          cases hc2 : crossover src pos1 p2 p1 with
          | error e => rw [hc2] at h; exact absurd h (by simp)
          | ok c2p =>
            obtain ⟨c2, pos2⟩ := c2p
            rw [hc2] at h
            simp only [ebind_ok] at h
            cases hm1 : mutate cfg src pos2 c1 with
            | error e => rw [hm1] at h; exact absurd h (by simp)
            | ok m1p =>
              obtain ⟨m1, pos3⟩ := m1p
              rw [hm1] at h
              simp only [ebind_ok] at h
              cases hm2 : mutate cfg src pos3 c2 with
              | error e => rw [hm2] at h; exact absurd h (by simp)
              | ok m2p =>
                obtain ⟨m2, pos4⟩ := m2p
                rw [hm2] at h
                simp only [ebind_ok] at h
                have hl1 : m1.length = L := by
                  rw [mutate_ok_length hm1, crossover_ok_length (by omega) hc1, hp1]
                have hl2 : m2.length = L := by
                  rw [mutate_ok_length hm2, crossover_ok_length (by omega) hc2, hp2]
                have hacc' : ∀ a ∈ acc ++ [m1, m2], a.length = L := by
                  intro a ha
                  rcases List.mem_append.mp ha with ha | ha
                  · exact hacc a ha
                  · rcases List.mem_cons.mp ha with ha | ha
                    · rw [ha]; exact hl1
                    · rcases List.mem_cons.mp ha with ha | ha
                      · rw [ha]; exact hl2
                      · exact absurd ha (by simp)
                obtain ⟨hL, hmem⟩ := ih hacc' h
                refine ⟨?_, hmem⟩
                rw [hL]
                simp only [List.length_append, List.length_cons, List.length_nil]
                omega

theorem createNewPopulation_ok {cfg : Config} {src : RSource}
    {parents res : List (List String)} {pos pos' : ℕ} {L : ℕ}
    (hpar : ∀ p ∈ parents, p.length = L)
    (h : createNewPopulation cfg src parents pos = .ok (res, pos')) :
    res.length = 2 * ((cfg.populationSize + 1) / 2) ∧
      ∀ s ∈ res, s.length = L := by
  unfold createNewPopulation at h
  obtain ⟨hL, hmem⟩ := newPopLoop_ok hpar (by intro a ha; exact absurd ha (by simp)) h
  refine ⟨?_, hmem⟩
  rw [hL, List.length_range']
  simp

theorem generationLoop_ok {cfg : Config} {src : RSource} {L : ℕ} :
    ∀ {g : ℕ} {pop : List (List String)} {pos : ℕ}
      {res : List (List String)} {pos' : ℕ},
      (∀ s ∈ pop, s.length = L) →
      generationLoop cfg src g pop pos = .ok (res, pos') →
      ∀ s ∈ res, s.length = L := by
  intro g
  induction g with
  | zero =>
    intro pop pos res pos' hpop h
    simp only [generationLoop, Except.ok.injEq, Prod.mk.injEq] at h
    rw [← h.1]
    exact hpop
  | succ n ih =>
    intro pop pos res pos' hpop h
    unfold generationLoop at h
    cases hs : selectParents cfg src pos pop with
    | error e => rw [hs] at h; exact absurd h (by simp)
    | ok pp =>
      obtain ⟨parents, pos1⟩ := pp
      rw [hs] at h
      simp only [ebind_ok] at h
      cases hc : createNewPopulation cfg src parents pos1 with
      | error e => rw [hc] at h; exact absurd h (by simp)
      | ok np =>
        obtain ⟨newPop, pos2⟩ := np
        rw [hc] at h
        simp only [ebind_ok] at h
        obtain ⟨_, hmemP⟩ := selectParents_ok hs
        have hpar : ∀ p ∈ parents, p.length = L := fun p hp => hpop p (hmemP p hp)
        obtain ⟨_, hmemN⟩ := createNewPopulation_ok hpar hc
        exact ih hmemN h

theorem randomChoiceList_ok {src : RSource} {chords : List String} :
    ∀ {n pos : ℕ} {res : List String} {pos' : ℕ},
      randomChoiceList src chords n pos = .ok (res, pos') → res.length = n := by
  intro n
  induction n with
  | zero =>
    intro pos res pos' h
    simp only [randomChoiceList, Except.ok.injEq, Prod.mk.injEq] at h
    rw [← h.1]
    rfl
  | succ m ih =>
    intro pos res pos' h
    unfold randomChoiceList at h
    cases hc : randomChoice src pos chords with
    | error e => rw [hc] at h; exact absurd h (by simp)
    | ok cp =>
      obtain ⟨c, pos1⟩ := cp
      rw [hc] at h
      simp only [ebind_ok] at h
      cases hr : randomChoiceList src chords m pos1 with
      | error e => rw [hr] at h; exact absurd h (by simp)
      | ok rp =>
        obtain ⟨rest, pos2⟩ := rp
        rw [hr] at h
        simp only [ebind_ok, Except.ok.injEq, Prod.mk.injEq] at h
        rw [← h.1]
        simp [ih hr]

theorem initialPopulation_ok {cfg : Config} {src : RSource} :
    ∀ {n pos : ℕ} {res : List (List String)} {pos' : ℕ},
      initialPopulation cfg src n pos = .ok (res, pos') →
      res.length = n ∧
        ∀ s ∈ res, s.length = (2 * cfg.melody.number_of_bars).toNat := by
  intro n
  induction n with
  | zero =>
    intro pos res pos' h
    simp only [initialPopulation, Except.ok.injEq, Prod.mk.injEq] at h
    rw [← h.1]
    exact ⟨rfl, by intro s hs; exact absurd hs (by simp)⟩
  | succ m ih =>
    intro pos res pos' h
    unfold initialPopulation at h
    cases hg : genRandomChordSequence cfg src pos with
    | error e => rw [hg] at h; exact absurd h (by simp)
    | ok sp =>
      obtain ⟨s, pos1⟩ := sp
      rw [hg] at h
      simp only [ebind_ok] at h
      cases hr : initialPopulation cfg src m pos1 with
      | error e => rw [hr] at h; exact absurd h (by simp)
      | ok rp =>
        obtain ⟨rest, pos2⟩ := rp
        rw [hr] at h
        simp only [ebind_ok, Except.ok.injEq, Prod.mk.injEq] at h
        obtain ⟨hlen, hmem⟩ := ih hr
        rw [← h.1]
        refine ⟨by simp [hlen], ?_⟩
        intro t ht
        rcases List.mem_cons.mp ht with ht | ht
        · rw [ht]
          exact randomChoiceList_ok hg
        · exact hmem t ht

theorem maxLoop_mem {f : List String → Except String ℚ} :
    ∀ {l : List (List String)} {best : List String} {bv : ℚ}
      {res : List String},
      maxLoop f l best bv = .ok res → res = best ∨ res ∈ l := by
  intro l
  induction l with
  | nil =>
    intro best bv res h
    simp only [maxLoop, Except.ok.injEq] at h
    exact Or.inl h.symm
  | cons y ys ih =>
    intro best bv res h
    unfold maxLoop at h
    cases hv : f y with
    | error e => rw [hv] at h; exact absurd h (by simp)
    | ok v =>
      rw [hv] at h
      simp only [ebind_ok] at h
      split at h
      · rcases ih h with h' | h'
        · exact Or.inr (by rw [h']; exact List.mem_cons_self y ys)
        · exact Or.inr (List.mem_cons_of_mem y h')
      · rcases ih h with h' | h'
        · exact Or.inl h'
        · exact Or.inr (List.mem_cons_of_mem y h')

theorem maxByKey_mem {f : List String → Except String ℚ}
    {l : List (List String)} {res : List String}
    (h : maxByKey f l = .ok res) : res ∈ l := by
  cases l with
  | nil => exact absurd h (by simp [maxByKey])
  | cons x xs =>
    unfold maxByKey at h
    dsimp only at h
    cases hv : f x with
    | error e => rw [hv] at h; exact absurd h (by simp)
    | ok v =>
      rw [hv] at h
      simp only [ebind_ok] at h
      rcases maxLoop_mem h with h' | h'
      · rw [h']; exact List.mem_cons_self x xs
      · exact List.mem_cons_of_mem x h'

/-- Whenever `generate` returns a chord sequence at all, that sequence has
exactly `2 * number_of_bars` chords (no hypotheses needed: success of the
run already forces every intermediate step to succeed). -/
theorem generate_ok_length {cfg : Config} {src : RSource} {gens : ℕ}
    {res : List String} (h : generate cfg src gens = .ok res) :
    res.length = (2 * cfg.melody.number_of_bars).toNat := by
  unfold generate at h
  cases h0 : initialPopulation cfg src cfg.populationSize 0 with
  | error e => rw [h0] at h; exact absurd h (by simp)
  | ok p0 =>
    obtain ⟨pop0, pos0⟩ := p0
    rw [h0] at h
    simp only [ebind_ok] at h
    cases h1 : generationLoop cfg src gens pop0 pos0 with
    | error e => rw [h1] at h; exact absurd h (by simp)
    | ok fp =>
      obtain ⟨finalPop, pos1⟩ := fp
      rw [h1] at h
      simp only [ebind_ok] at h
      obtain ⟨_, hmem0⟩ := initialPopulation_ok h0
      have hmemF := generationLoop_ok hmem0 h1
      exact hmemF res (maxByKey_mem h)

theorem exists_error_of_isOk_false {ε α : Type} {x : Except ε α}
    (h : x.isOk = false) : ∃ e, x = .error e := by
  cases x with
  | error e => exact ⟨e, rfl⟩
  | ok a => exact absurd h (by simp)

theorem randomChoiceList_isOk {src : RSource} {chords : List String}
    (hch : chords ≠ []) :
    ∀ (n pos : ℕ), ∃ res pos',
      randomChoiceList src chords n pos = .ok (res, pos') ∧ res.length = n := by
  intro n
  induction n with
  | zero => exact fun pos => ⟨[], pos, rfl, rfl⟩
  | succ m ih =>
    intro pos
    obtain ⟨c, pos1, hc, _⟩ := @randomChoice_isOk src pos _ hch
    obtain ⟨rest, pos2, hr, hlen⟩ := ih pos1
    refine ⟨c :: rest, pos2, ?_, by simp [hlen]⟩
    unfold randomChoiceList
    rw [hc]
    simp only [ebind_ok]
    rw [hr]
    rfl

theorem genRandomChordSequence_isOk {cfg : Config} {src : RSource}
    (hch : cfg.chords ≠ []) (pos : ℕ) :
    ∃ s pos', genRandomChordSequence cfg src pos = .ok (s, pos') ∧
      s.length = (2 * cfg.melody.number_of_bars).toNat := by
  obtain ⟨s, pos', h, hlen⟩ :=
    @randomChoiceList_isOk src _ hch (2 * cfg.melody.number_of_bars).toNat pos
  exact ⟨s, pos', h, hlen⟩

theorem newPopLoop_ok_count {cfg : Config} {src : RSource}
    {parents : List (List String)} :
    ∀ {idxs : List ℕ} {pos : ℕ} {acc res : List (List String)} {pos' : ℕ},
      newPopLoop cfg src parents idxs pos acc = .ok (res, pos') →
      res.length = acc.length + 2 * idxs.length := by
  intro idxs
  induction idxs with
  | nil =>
    intro pos acc res pos' h
    simp only [newPopLoop, Except.ok.injEq, Prod.mk.injEq] at h
    rw [← h.1]
    simp
  | cons i rest ih =>
    intro pos acc res pos' h
    unfold newPopLoop at h
    cases hg1 : parents.get? i with
    | none => rw [hg1] at h; exact absurd h (by simp)
    | some p1 =>
      rw [hg1] at h
      cases hg2 : parents.get? (i + 1) with
      | none => rw [hg2] at h; exact absurd h (by simp)
      | some p2 =>
        rw [hg2] at h
        dsimp only at h
        cases hc1 : crossover src pos p1 p2 with
        | error e => rw [hc1] at h; exact absurd h (by simp)
        | ok c1p =>
          obtain ⟨c1, pos1⟩ := c1p
          rw [hc1] at h
          simp only [ebind_ok] at h
          cases hc2 : crossover src pos1 p2 p1 with
          | error e => rw [hc2] at h; exact absurd h (by simp)
          | ok c2p =>
            obtain ⟨c2, pos2⟩ := c2p
            rw [hc2] at h
            simp only [ebind_ok] at h
            cases hm1 : mutate cfg src pos2 c1 with
            | error e => rw [hm1] at h; exact absurd h (by simp)
            | ok m1p =>
              obtain ⟨m1, pos3⟩ := m1p
              rw [hm1] at h
              simp only [ebind_ok] at h
              cases hm2 : mutate cfg src pos3 c2 with
              | error e => rw [hm2] at h; exact absurd h (by simp)
              | ok m2p =>
                obtain ⟨m2, pos4⟩ := m2p
                rw [hm2] at h
                simp only [ebind_ok] at h
                have := ih h
                rw [this]
                simp only [List.length_append, List.length_cons, List.length_nil]
                omega

theorem newPopLoop_fails {cfg : Config} {src : RSource}
    {parents : List (List String)} :
    ∀ {idxs : List ℕ}, (∃ i ∈ idxs, parents.length ≤ i + 1) →
      ∀ {pos : ℕ} {acc : List (List String)},
        (newPopLoop cfg src parents idxs pos acc).isOk = false := by
  intro idxs
  induction idxs with
  | nil =>
    intro hmem
    obtain ⟨i, hi, _⟩ := hmem
    exact absurd hi (by simp)
  | cons j rest ih =>
    intro hmem pos acc
    by_cases hj : parents.length ≤ j + 1
    · unfold newPopLoop
      cases hg1 : parents.get? j with
      | none => simp
      | some p1 =>
        have : parents.get? (j + 1) = none := List.get?_eq_none.mpr hj
        rw [this]
        simp
    · obtain ⟨i, hi, hleni⟩ := hmem
      have hir : i ∈ rest := by
        rcases List.mem_cons.mp hi with hij | hir
        · exact absurd (hij ▸ hleni) hj
        · exact hir
      unfold newPopLoop
      cases hg1 : parents.get? j with
      | none => simp
      | some p1 =>
        cases hg2 : parents.get? (j + 1) with
        | none => simp
        | some p2 =>
          dsimp only
          cases hc1 : crossover src pos p1 p2 with
          | error e => simp
          | ok c1p =>
            obtain ⟨c1, pos1⟩ := c1p
            simp only [ebind_ok]
            cases hc2 : crossover src pos1 p2 p1 with
            | error e => simp
            | ok c2p =>
              obtain ⟨c2, pos2⟩ := c2p
              simp only [ebind_ok]
              cases hm1 : mutate cfg src pos2 c1 with
              | error e => simp
              | ok m1p =>
                obtain ⟨m1, pos3⟩ := m1p
                simp only [ebind_ok]
                cases hm2 : mutate cfg src pos3 c2 with
                | error e => simp
                | ok m2p =>
                  obtain ⟨m2, pos4⟩ := m2p
                  simp only [ebind_ok]
                  exact ih ⟨i, hir, hleni⟩

theorem evalLoop_cons (w : List (String × ℚ)) (seq : List String)
    (nm : String) (f : List String → Except String ℚ)
    (rest : List (String × (List String → Except String ℚ))) (tot : ℚ) :
    evalLoop w seq ((nm, f) :: rest) tot =
      f seq >>= fun s => evalLoop w seq rest (tot + s * dictGetD w nm 0) := rfl

theorem evalLoop_nil (w : List (String × ℚ)) (seq : List String) (tot : ℚ) :
    evalLoop w seq [] tot = .ok tot := rfl

/-- On a two-chord sequence every call of `evaluate` fails: the first five
metrics may or may not fail, but `ChordRepetitions` always divides by zero
because its normalizer is `len - 2 = 0`. -/
theorem evaluate_len2_fails {cfg : Config} {seq : List String}
    (h : seq.length = 2) : (evaluate cfg seq).isOk = false := by
  have h6 : chordRepetitions seq = .error "ZeroDivisionError: division by zero" := by
    unfold chordRepetitions
    rw [h]
    norm_num
  simp only [evaluate, metricList, evalLoop_cons]
  cases h1 : chordMelodyCongruence cfg.melody cfg.chordMappings seq with
  | error e => simp
  | ok s1 =>
    simp only [ebind_ok]
    cases h2 : chordVariety cfg.chordMappings seq with
    | error e => simp
    | ok s2 =>
      simp only [ebind_ok]
      cases h3 : harmonicFlow cfg.preferredTransitions seq with
      | error e => simp
      | ok s3 =>
        simp only [ebind_ok]
        cases h4 : functionalHarmony seq with
        | error e => simp
        | ok s4 =>
          simp only [ebind_ok]
          cases h5 : voiceLeading cfg.chordMappings seq with
          | error e => simp
          | ok s5 =>
            simp only [ebind_ok, h6, ebind_error, isOk_error]

/-- With a one-bar melody every individual has two chords, so the very
first fitness evaluation divides by zero and `generate` never returns a
sequence. -/
theorem generate_bar_count_one_fails (cfg : Config) (src : RSource)
    (gens : ℕ) (hb : cfg.melody.number_of_bars = 1)
    (hp : 1 ≤ cfg.populationSize) : (generate cfg src gens).isOk = false := by
  unfold generate
  cases h0 : initialPopulation cfg src cfg.populationSize 0 with
  | error e => simp
  | ok p0 =>
    obtain ⟨pop0, pos0⟩ := p0
    simp only [ebind_ok]
    obtain ⟨hlen, hmem⟩ := initialPopulation_ok h0
    obtain ⟨x, xs, hx⟩ : ∃ x xs, pop0 = x :: xs := by
      cases pop0 with
      | nil => rw [← hlen] at hp; exact absurd hp (by simp)
      | cons a as => exact ⟨a, as, rfl⟩
    have hx2 : x.length = 2 := by
      have hm := hmem x (by rw [hx]; exact List.mem_cons_self x xs)
      rw [hb] at hm
      exact hm
    obtain ⟨ex, hex⟩ := exists_error_of_isOk_false (evaluate_len2_fails hx2)
    cases gens with
    | zero =>
      have hgl : generationLoop cfg src 0 pop0 pos0 = .ok (pop0, pos0) := rfl
      rw [hgl]
      simp only [ebind_ok]
      rw [hx]
      unfold maxByKey
      dsimp only
      rw [hex]
      simp
    | succ g =>
      have hsel : selectParents cfg src pos0 (x :: xs) = .error ex := by
        unfold selectParents evalAll
        rw [hex]
        simp
      unfold generationLoop
      rw [hx, hsel]
      simp

/-- With an odd population size, the pairing loop of the first generation
always indexes `parents[population_size]`, one past the end, so `generate`
never returns a sequence (the source performs no configuration check). -/
theorem generate_odd_pop_fails (cfg : Config) (src : RSource) (gens : ℕ)
    (hodd : cfg.populationSize % 2 = 1) (hg : 1 ≤ gens) :
    (generate cfg src gens).isOk = false := by
  unfold generate
  cases h0 : initialPopulation cfg src cfg.populationSize 0 with
  | error e => simp
  | ok p0 =>
    obtain ⟨pop0, pos0⟩ := p0
    simp only [ebind_ok]
    obtain ⟨g, rfl⟩ : ∃ g, gens = g + 1 := ⟨gens - 1, by omega⟩
    unfold generationLoop
    cases hs : selectParents cfg src pos0 pop0 with
    | error e => simp
    | ok pp =>
      obtain ⟨parents, pos1⟩ := pp
      simp only [ebind_ok]
      obtain ⟨hplen, _⟩ := selectParents_ok hs
      have hfail : (createNewPopulation cfg src parents pos1).isOk = false := by
        unfold createNewPopulation
        apply newPopLoop_fails
        refine ⟨cfg.populationSize - 1, ?_, by omega⟩
        exact List.mem_range'.mpr ⟨(cfg.populationSize - 1) / 2, by omega, by omega⟩
      obtain ⟨e2, he2⟩ := exists_error_of_isOk_false hfail
      rw [he2]
      simp

theorem evalAll_all_zero {cfg : Config} :
    ∀ {pop : List (List String)}, (∀ s ∈ pop, evaluate cfg s = .ok 0) →
      evalAll cfg pop = .ok (List.replicate pop.length (0 : ℚ)) := by
  intro pop
  induction pop with
  | nil => intro _; rfl
  | cons s rest ih =>
    intro hz
    unfold evalAll
    rw [hz s (List.mem_cons_self s rest)]
    simp only [ebind_ok]
    rw [ih (fun t ht => hz t (List.mem_cons_of_mem s ht))]
    rfl

theorem accAux_zeros : ∀ n : ℕ,
    accAux 0 (List.replicate n (0 : ℚ)) = List.replicate n 0 := by
  intro n
  induction n with
  | zero => rfl
  | succ m ih =>
    simp only [List.replicate_succ, accAux, add_zero, ih]

/-- If every individual of a non-empty population has fitness exactly 0,
`_select_parents` propagates the `random.choices` `ValueError` — there is
no fallback selection policy in the source. -/
theorem selectParents_all_zero_fitness {cfg : Config} {src : RSource}
    {pos : ℕ} {pop : List (List String)} (hne : pop ≠ [])
    (hz : ∀ s ∈ pop, evaluate cfg s = .ok 0) :
    selectParents cfg src pos pop =
      .error "ValueError: Total of weights must be greater than zero" := by
  unfold selectParents
  rw [evalAll_all_zero hz]
  simp only [ebind_ok]
  unfold randomChoicesW
  rw [show accumulate (List.replicate pop.length (0 : ℚ)) =
      List.replicate pop.length 0 from accAux_zeros pop.length]
  rw [if_neg (by simp)]
  rw [List.getLast?_replicate]
  rw [if_neg (by
    intro hc
    exact hne (List.length_eq_zero.mp hc))]
  dsimp only
  rw [if_pos le_rfl]

theorem foldl_count_pen {α : Type} (p : α → Prop) [DecidablePred p] (pen : ℚ) :
    ∀ (l : List α) (init : ℚ),
      List.foldl (fun score c => if p c then score + pen else score) init l =
        init + ((l.countP fun c => decide (p c)) : ℕ) * pen := by
  intro l
  induction l with
  | nil => intro init; simp
  | cons a rest ih =>
    intro init
    simp only [List.foldl_cons, List.countP_cons]
    by_cases hp : p a
    · rw [if_pos hp, ih]
      rw [decide_eq_true hp]
      simp
      ring
    · rw [if_neg hp, ih]
      rw [decide_eq_false hp]
      simp

theorem foldl_two_count_pen (p q : ℕ → Prop) [DecidablePred p]
    [DecidablePred q] (pen : ℚ) :
    ∀ (l : List ℕ) (init : ℚ),
      List.foldl (fun score i =>
        let s1 := if p i then score + pen else score
        if q i then s1 + pen else s1) init l =
      init + (((l.countP fun i => decide (p i)) : ℕ)
        + ((l.countP fun i => decide (q i)) : ℕ)) * pen := by
  intro l
  induction l with
  | nil => intro init; simp
  | cons a rest ih =>
    intro init
    simp only [List.foldl_cons, List.countP_cons]
    rw [ih]
    by_cases hp : p a <;> by_cases hq : q a
    · rw [if_pos hp, if_pos hq, decide_eq_true hp, decide_eq_true hq]
      simp
      ring
    · rw [if_pos hp, if_neg hq, decide_eq_true hp, decide_eq_false hq]
      simp
      ring
    · rw [if_neg hp, if_pos hq, decide_eq_false hp, decide_eq_true hq]
      simp
      ring
    · rw [if_neg hp, if_neg hq, decide_eq_false hp, decide_eq_false hq]
      simp

/-- Closed form of `ChordRepetitions.calculate`: both penalty families are
indexed by `i < len - 2`, so the final adjacent pair
`(len - 2, len - 1)` is never compared. -/
theorem chordRepetitions_closed (seq : List String) (h : 3 ≤ seq.length) :
    chordRepetitions seq = .ok (1 -
      ((((List.range (seq.length - 2)).countP
          (fun i => decide (seq.getD i "" = seq.getD (i + 1) "")) : ℕ)
        + ((List.range (seq.length - 2)).countP
          (fun i => decide (seq.getD i "" = seq.getD (i + 2) "")) : ℕ) : ℚ)) /
      ((seq.length : ℚ) - 2)) := by
  unfold chordRepetitions
  rw [if_neg (by omega)]
  dsimp only
  have htoNat : ((seq.length : Int) - 2).toNat = seq.length - 2 := by omega
  rw [htoNat]
  rw [foldl_two_count_pen
    (fun i => seq.getD i "" = seq.getD (i + 1) "")
    (fun i => seq.getD i "" = seq.getD (i + 2) "")
    (-1 / (((seq.length : Int) - 2 : Int) : ℚ))]
  have hcast : (((seq.length : Int) - 2 : Int) : ℚ) = (seq.length : ℚ) - 2 := by
    push_cast
    ring
  rw [hcast]
  congr 1
  ring

/-- The formula claim C5 states for `ChordRepetitions`: the
immediate-repeat penalty ranges over ALL adjacent pairs including the final
one (`i < len - 1`), the skip penalty over `i < len - 2`. -/
def chordRepetitionsClaimed (seq : List String) : ℚ :=
  1 - ((((List.range (seq.length - 1)).countP
        (fun i => decide (seq.getD i "" = seq.getD (i + 1) "")) : ℕ)
    + ((List.range (seq.length - 2)).countP
        (fun i => decide (seq.getD i "" = seq.getD (i + 2) "")) : ℕ) : ℚ)) /
    ((seq.length : ℚ) - 2)

theorem chordRepetitions_le_one (seq : List String) (h : 3 ≤ seq.length) :
    ∃ v, chordRepetitions seq = .ok v ∧ v ≤ 1 := by
  refine ⟨_, chordRepetitions_closed seq h, ?_⟩
  have hd : 0 < (seq.length : ℚ) - 2 := by
    have h3 : (3 : ℚ) ≤ (seq.length : ℚ) := by exact_mod_cast h
    linarith
  exact sub_le_self 1 (div_nonneg (by positivity) (le_of_lt hd))

theorem parallelFifths_le_one (pfs : List (String × String))
    (seq : List String) (h : 2 ≤ seq.length) :
    ∃ v, parallelFifths pfs seq = .ok v ∧ v ≤ 1 := by
  unfold parallelFifths
  rw [if_neg (by omega)]
  dsimp only
  rw [foldl_count_pen
    (fun i => pairMem (seq.getD i "") (seq.getD (i + 1) "") pfs = true)
    (-1 / (((seq.length : Int) - 1 : Int) : ℚ))]
  refine ⟨_, rfl, ?_⟩
  have key : ∀ c : ℚ, 0 ≤ c →
      1 + c * (-1 / (((seq.length : Int) - 1 : Int) : ℚ)) ≤ 1 := by
    intro c hc
    have hd : (0 : ℚ) < (((seq.length : Int) - 1 : Int) : ℚ) := by
      have h1 : (0 : Int) < (seq.length : Int) - 1 := by omega
      exact_mod_cast h1
    have hpen : (-1 : ℚ) / (((seq.length : Int) - 1 : Int) : ℚ) ≤ 0 :=
      div_nonpos_of_nonpos_of_nonneg (by norm_num) (le_of_lt hd)
    nlinarith
  apply key
  positivity

theorem chordVariety_bounds (mappings : List (String × List String))
    (seq : List String) (hne : seq ≠ [])
    (hsub : ∀ c ∈ seq, c ∈ mappings.map Prod.fst) :
    ∃ v, chordVariety mappings seq = .ok v ∧ 0 ≤ v ∧ v ≤ 1 := by
  have hmapne : mappings ≠ [] := by
    obtain ⟨c, hc⟩ := List.exists_mem_of_ne_nil seq hne
    have hcm := hsub c hc
    intro hmap
    rw [hmap] at hcm
    exact absurd hcm (by simp)
  have htot : 0 < mappings.length := List.length_pos.mpr hmapne
  unfold chordVariety
  rw [if_neg (by omega)]
  refine ⟨_, rfl, ?_, ?_⟩
  · positivity
  · rw [div_le_one (by exact_mod_cast htot)]
    have hsubd : seq.dedup ⊆ mappings.map Prod.fst :=
      fun c hc => hsub c (List.dedup_subset seq hc)
    have hnodup : seq.dedup.Nodup := List.nodup_dedup seq
    have hle := (List.subperm_of_subset hnodup hsubd).length_le
    rw [List.length_map] at hle
    exact_mod_cast hle

theorem foldl_add_snd (notes : List (String × Int)) :
    ∀ a : Int, notes.foldl (fun acc p => acc + p.2) a
      = a + (notes.map Prod.snd).sum := by
  induction notes with
  | nil => intro a; simp
  | cons n rest ih =>
    intro a
    simp only [List.foldl_cons, List.map_cons, List.sum_cons, ih]
    ring

/-- `MelodyData.make` never fails: every note list, well formed or not,
yields a value whose duration is the sum of the durations and whose bar
count is the floor of `duration / 4`. -/
theorem melodyData_make_spec (notes : List (String × Int)) :
    (MelodyData.make notes).notes = notes ∧
    (MelodyData.make notes).duration = (notes.map Prod.snd).sum ∧
    (MelodyData.make notes).number_of_bars
      = Int.fdiv (notes.map Prod.snd).sum 4 := by
  refine ⟨rfl, ?_, ?_⟩ <;>
    simp only [MelodyData.make, foldl_add_snd, zero_add]

/-- Whenever `evaluate` succeeds, its value is the weighted sum of the nine
metric scores, each weighted by `weights.get(name, 0)`; in particular with
an empty weight mapping a successful evaluation is exactly 0. -/
theorem evaluate_ok_formula {cfg : Config} {seq : List String} {v : ℚ}
    (h : evaluate cfg seq = .ok v) :
    ∃ s1 s2 s3 s4 s5 s6 s7 s8 s9,
      chordMelodyCongruence cfg.melody cfg.chordMappings seq = .ok s1 ∧
      chordVariety cfg.chordMappings seq = .ok s2 ∧
      harmonicFlow cfg.preferredTransitions seq = .ok s3 ∧
      functionalHarmony seq = .ok s4 ∧
      voiceLeading cfg.chordMappings seq = .ok s5 ∧
      chordRepetitions seq = .ok s6 ∧
      functionalProgressions cfg.commonProgressions seq = .ok s7 ∧
      nonDiatonicChords seq = .ok s8 ∧
      parallelFifths cfg.chordsWithParallelFifths seq = .ok s9 ∧
      v = s1 * dictGetD cfg.weights "ChordMelodyCongruence" 0
        + s2 * dictGetD cfg.weights "ChordVariety" 0
        + s3 * dictGetD cfg.weights "HarmonicFlow" 0
        + s4 * dictGetD cfg.weights "FunctionalHarmony" 0
        + s5 * dictGetD cfg.weights "VoiceLeading" 0
        + s6 * dictGetD cfg.weights "ChordRepetitions" 0
        + s7 * dictGetD cfg.weights "FunctionalProgressions" 0
        + s8 * dictGetD cfg.weights "NonDiatonicChords" 0
        + s9 * dictGetD cfg.weights "ParallelFifths" 0 ∧
      (cfg.weights = [] → v = 0) := by
  simp only [evaluate, metricList, evalLoop_cons] at h
  cases h1 : chordMelodyCongruence cfg.melody cfg.chordMappings seq with
  | error e => rw [h1] at h; exact absurd h (by simp)
  | ok s1 =>
  rw [h1] at h
  simp only [ebind_ok] at h
  cases h2 : chordVariety cfg.chordMappings seq with
  | error e => rw [h2] at h; exact absurd h (by simp)
  | ok s2 =>
  rw [h2] at h
  simp only [ebind_ok] at h
  cases h3 : harmonicFlow cfg.preferredTransitions seq with
  | error e => rw [h3] at h; exact absurd h (by simp)
  | ok s3 =>
  rw [h3] at h
  simp only [ebind_ok] at h
  cases h4 : functionalHarmony seq with
  | error e => rw [h4] at h; exact absurd h (by simp)
  | ok s4 =>
  rw [h4] at h
  simp only [ebind_ok] at h
  cases h5 : voiceLeading cfg.chordMappings seq with
  | error e => rw [h5] at h; exact absurd h (by simp)
  | ok s5 =>
  rw [h5] at h
  simp only [ebind_ok] at h
  cases h6 : chordRepetitions seq with
  | error e => rw [h6] at h; exact absurd h (by simp)
  | ok s6 =>
  rw [h6] at h
  simp only [ebind_ok] at h
  cases h7 : functionalProgressions cfg.commonProgressions seq with
  | error e => rw [h7] at h; exact absurd h (by simp)
  | ok s7 =>
  rw [h7] at h
  simp only [ebind_ok] at h
  cases h8 : nonDiatonicChords seq with
  | error e => rw [h8] at h; exact absurd h (by simp)
  | ok s8 =>
  rw [h8] at h
  simp only [ebind_ok] at h
  cases h9 : parallelFifths cfg.chordsWithParallelFifths seq with
  | error e => rw [h9] at h; exact absurd h (by simp)
  | ok s9 =>
  rw [h9] at h
  simp only [ebind_ok, evalLoop_nil, Except.ok.injEq] at h
  refine ⟨s1, s2, s3, s4, s5, s6, s7, s8, s9,
    rfl, rfl, rfl, rfl, rfl, rfl, rfl, rfl, rfl, ?_, ?_⟩
  · rw [← h]
    ring
  · intro hw
    rw [← h, hw]
    simp only [dictGetD, alistFind]
    ring

/-- Over the default vocabulary, `NonDiatonicChords.calculate` counts
exactly the six chords C7, D7, E7, A7, Dm7b5, Gmin7: the diminished
vocabulary chord `Eº7` is NOT a member of the metric's hard-coded set,
whose sixth element is the distinct mojibake string `EÂº7`. -/
theorem nonDiatonicChords_default (seq : List String) (hne : seq ≠ [])
    (hsub : ∀ c ∈ seq, c ∈ defaultChordMappings.map Prod.fst) :
    nonDiatonicChords seq = .ok
      (((seq.countP (fun c =>
          decide (c ∈ ["C7", "D7", "E7", "A7", "Dm7b5", "Gmin7"]))) : ℕ)
        / (seq.length : ℚ)) ∧
    "Eº7" ∉ nonDiatonicSet := by
  constructor
  · unfold nonDiatonicChords
    rw [if_neg (by
      intro hc
      exact hne (List.length_eq_zero.mp hc))]
    dsimp only
    rw [foldl_count_pen (fun c => c ∈ nonDiatonicSet) (1 / (seq.length : ℚ))]
    have hcong : seq.countP (fun c => decide (c ∈ nonDiatonicSet))
        = seq.countP (fun c =>
            decide (c ∈ ["C7", "D7", "E7", "A7", "Dm7b5", "Gmin7"])) := by
      apply List.countP_congr
      intro c hc
      have hkey := hsub c hc
      simp only [defaultChordMappings, List.map_cons, List.map_nil] at hkey
      simp only [decide_eq_true_eq]
      fin_cases hkey <;> decide
    rw [hcong]
    rw [zero_add]
    congr 1
    ring
  · decide

/-! ## Claim theorems -/

unseal Rat.mul Rat.add Rat.inv Rat.sub

/-- C1: for every valid configuration (bar count at least 1, even
population size at least 2, at least one generation, non-empty chord
vocabulary), any chord sequence returned by `generate` has length exactly
`2 * number_of_bars`, and the initial random generation, one-point
crossover of two equal-length parents, and mutation all succeed and
produce sequences of that same length. -/
theorem C1_output_and_operators_length (cfg : Config) (src : RSource)
    (gens : ℕ) (hbars : 1 ≤ cfg.melody.number_of_bars)
    (_hev : cfg.populationSize % 2 = 0) (_hp2 : 2 ≤ cfg.populationSize)
    (_hg : 1 ≤ gens) (hch : cfg.chords ≠ []) :
    (∀ res, generate cfg src gens = .ok res →
      res.length = (2 * cfg.melody.number_of_bars).toNat) ∧
    (∀ pos, ∃ s pos', genRandomChordSequence cfg src pos = .ok (s, pos') ∧
      s.length = (2 * cfg.melody.number_of_bars).toNat) ∧
    (∀ pos (p1 p2 : List String),
      p1.length = (2 * cfg.melody.number_of_bars).toNat →
      p2.length = (2 * cfg.melody.number_of_bars).toNat →
      ∃ c pos', crossover src pos p1 p2 = .ok (c, pos') ∧
        c.length = (2 * cfg.melody.number_of_bars).toNat) ∧
    (∀ pos (s : List String),
      s.length = (2 * cfg.melody.number_of_bars).toNat →
      ∃ m pos', mutate cfg src pos s = .ok (m, pos') ∧
        m.length = (2 * cfg.melody.number_of_bars).toNat) := by
  have hL2 : 2 ≤ (2 * cfg.melody.number_of_bars).toNat := by omega
  refine ⟨?_, ?_, ?_, ?_⟩
  · intro res h
    exact generate_ok_length h
  · intro pos
    exact genRandomChordSequence_isOk hch pos
  · intro pos p1 p2 hp1 hp2'
    obtain ⟨c, pos', hok⟩ := crossover_isOk p1 p2 (by omega)
    exact ⟨c, pos', hok, by rw [crossover_ok_length (by omega) hok, hp1]⟩
  · intro pos s hs
    obtain ⟨m, pos', hok⟩ := mutate_isOk s (by omega) hch
    exact ⟨m, pos', hok, by rw [mutate_ok_length hok, hs]⟩

/-- Witness for C1 at the concrete configuration `cfgTiny`. -/
theorem C1_output_and_operators_length_witness :
    (1 ≤ cfgTiny.melody.number_of_bars ∧ cfgTiny.populationSize % 2 = 0 ∧
      2 ≤ cfgTiny.populationSize ∧ 1 ≤ 1 ∧ cfgTiny.chords ≠ []) ∧
    ((∀ res, generate cfgTiny srcZero 1 = .ok res →
      res.length = (2 * cfgTiny.melody.number_of_bars).toNat) ∧
    (∀ pos, ∃ s pos',
      genRandomChordSequence cfgTiny srcZero pos = .ok (s, pos') ∧
      s.length = (2 * cfgTiny.melody.number_of_bars).toNat) ∧
    (∀ pos (p1 p2 : List String),
      p1.length = (2 * cfgTiny.melody.number_of_bars).toNat →
      p2.length = (2 * cfgTiny.melody.number_of_bars).toNat →
      ∃ c pos', crossover srcZero pos p1 p2 = .ok (c, pos') ∧
        c.length = (2 * cfgTiny.melody.number_of_bars).toNat) ∧
    (∀ pos (s : List String),
      s.length = (2 * cfgTiny.melody.number_of_bars).toNat →
      ∃ m pos', mutate cfgTiny srcZero pos s = .ok (m, pos') ∧
        m.length = (2 * cfgTiny.melody.number_of_bars).toNat)) :=
  ⟨⟨by decide, by decide, by decide, by decide, by decide⟩,
    C1_output_and_operators_length cfgTiny srcZero 1 (by decide) (by decide)
      (by decide) (by decide) (by decide)⟩

/-- C2 counterexample: on the default `main` configuration restricted to a
one-bar melody of four quarter notes, `generate` does not return a
length-2 sequence; it raises `ZeroDivisionError` the first time a
two-chord individual is evaluated. -/
theorem C2_one_bar_zero_division_counterexample :
    cfgOneBar.melody.number_of_bars = 1 ∧
    generate cfgOneBar srcZero 1
      = .error "ZeroDivisionError: division by zero" :=
  ⟨by decide, by decide⟩

/-- C2 (amended): for every configuration whose melody has exactly one bar
and whose population is non-empty, `generate` never completes normally:
all individuals have two chords and `ChordRepetitions` divides by zero
during the first fitness evaluation, whatever the generation count. -/
theorem C2_one_bar_run_fails (cfg : Config) (src : RSource) (gens : ℕ)
    (hb : cfg.melody.number_of_bars = 1) (hp : 1 ≤ cfg.populationSize) :
    (generate cfg src gens).isOk = false :=
  generate_bar_count_one_fails cfg src gens hb hp

/-- Witness for C2 (amended) at `cfgOneBar`. -/
theorem C2_one_bar_run_fails_witness :
    (cfgOneBar.melody.number_of_bars = 1 ∧ 1 ≤ cfgOneBar.populationSize) ∧
    (generate cfgOneBar srcZero 1).isOk = false :=
  ⟨⟨by decide, by decide⟩,
    C2_one_bar_run_fails cfgOneBar srcZero 1 (by decide) (by decide)⟩

/-- C3 counterexample: with an empty weight mapping every individual has
fitness 0, and `generate` propagates the `ValueError` of `random.choices`
from the weighted sampling step — no fallback policy exists. -/
theorem C3_all_zero_fitness_counterexample :
    cfgZeroWeights.weights = [] ∧
    evaluate cfgZeroWeights ["Cmaj7", "Cmaj7", "Cmaj7", "Cmaj7"] = .ok 0 ∧
    generate cfgZeroWeights srcZero 1
      = .error "ValueError: Total of weights must be greater than zero" :=
  ⟨by decide, by decide, by decide⟩

/-- C3 (amended): when every individual of a non-empty population
evaluates to fitness 0, `_select_parents` fails with the `random.choices`
error `ValueError: Total of weights must be greater than zero`; selection
is not handled by any fallback policy. -/
theorem C3_zero_fitness_selection_error (cfg : Config) (src : RSource)
    (pos : ℕ) (pop : List (List String)) (hne : pop ≠ [])
    (hz : ∀ s ∈ pop, evaluate cfg s = .ok 0) :
    selectParents cfg src pos pop =
      .error "ValueError: Total of weights must be greater than zero" :=
  selectParents_all_zero_fitness hne hz

/-- Witness for C3 (amended) on a concrete all-zero-fitness population. -/
theorem C3_zero_fitness_selection_error_witness :
    (([["Cmaj7", "Cmaj7", "Cmaj7", "Cmaj7"],
       ["Cmaj7", "Cmaj7", "Cmaj7", "Cmaj7"]] : List (List String)) ≠ [] ∧
      (∀ s ∈ ([["Cmaj7", "Cmaj7", "Cmaj7", "Cmaj7"],
        ["Cmaj7", "Cmaj7", "Cmaj7", "Cmaj7"]] : List (List String)),
        evaluate cfgZeroWeights s = .ok 0)) ∧
    selectParents cfgZeroWeights srcZero 0
        [["Cmaj7", "Cmaj7", "Cmaj7", "Cmaj7"],
         ["Cmaj7", "Cmaj7", "Cmaj7", "Cmaj7"]] =
      .error "ValueError: Total of weights must be greater than zero" :=
  ⟨⟨by decide, by decide⟩,
    C3_zero_fitness_selection_error cfgZeroWeights srcZero 0
      [["Cmaj7", "Cmaj7", "Cmaj7", "Cmaj7"],
       ["Cmaj7", "Cmaj7", "Cmaj7", "Cmaj7"]] (by decide) (by decide)⟩

/-- C4 counterexample: with `population_size = 3` the constructor performs
no validation and the first generation begins (initialisation and parent
selection both succeed); the run then dies inside `_create_new_population`
with an `IndexError`, not with a configuration error before the loop. -/
theorem C4_odd_population_counterexample :
    cfgOddPop.populationSize = 3 ∧
    initialPopulation cfgOddPop srcZero 3 0
      = .ok ([["Cmaj7", "Cmaj7", "Cmaj7", "Cmaj7"],
              ["Cmaj7", "Cmaj7", "Cmaj7", "Cmaj7"],
              ["Cmaj7", "Cmaj7", "Cmaj7", "Cmaj7"]], 12) ∧
    (selectParents cfgOddPop srcZero 12
        [["Cmaj7", "Cmaj7", "Cmaj7", "Cmaj7"],
         ["Cmaj7", "Cmaj7", "Cmaj7", "Cmaj7"],
         ["Cmaj7", "Cmaj7", "Cmaj7", "Cmaj7"]]).isOk = true ∧
    generate cfgOddPop srcZero 1 = .error "IndexError: list index out of range" :=
  ⟨by decide, by decide, by decide, by decide⟩

/-- C4 (amended): an odd population size is not rejected at construction;
instead, whenever at least one generation runs, `generate` always fails —
the pairing loop of the first generation reaches index
`population_size - 1` and `parents[population_size]` is out of range (or
an earlier step of the same run has already raised). -/
theorem C4_odd_population_first_generation_fails (cfg : Config)
    (src : RSource) (gens : ℕ) (hodd : cfg.populationSize % 2 = 1)
    (hg : 1 ≤ gens) : (generate cfg src gens).isOk = false :=
  generate_odd_pop_fails cfg src gens hodd hg

/-- Witness for C4 (amended) at `cfgOddPop`. -/
theorem C4_odd_population_first_generation_fails_witness :
    (cfgOddPop.populationSize % 2 = 1 ∧ 1 ≤ 1) ∧
    (generate cfgOddPop srcZero 1).isOk = false :=
  ⟨⟨by decide, by decide⟩,
    C4_odd_population_first_generation_fails cfgOddPop srcZero 1
      (by decide) (by decide)⟩

/-- C5 counterexample: on `["Cmaj7", "Dm7", "Dm7"]` the final adjacent
pair repeats, so the claimed formula (which includes that pair) gives 0,
but the code returns 1: the loop bound `len - 2` never examines the last
adjacent pair. -/
theorem C5_last_pair_counterexample :
    chordRepetitions ["Cmaj7", "Dm7", "Dm7"] = .ok 1 ∧
    chordRepetitionsClaimed ["Cmaj7", "Dm7", "Dm7"] = 0 ∧ (1 : ℚ) ≠ 0 :=
  ⟨by decide, by decide, by decide⟩

/-- C5 (amended): for every sequence of length at least 3,
`ChordRepetitions.calculate` returns 1 minus `1/(length-2)` for every
position `i < length - 2` with `chord[i] = chord[i+1]` — excluding the
final adjacent pair at positions `length-2, length-1` — and additionally
minus `1/(length-2)` for every such `i` with `chord[i] = chord[i+2]`; the
result is not clamped and may be negative. -/
theorem C5_chord_repetitions_closed_form (seq : List String)
    (h : 3 ≤ seq.length) :
    chordRepetitions seq = .ok (1 -
      ((((List.range (seq.length - 2)).countP
          (fun i => decide (seq.getD i "" = seq.getD (i + 1) "")) : ℕ)
        + ((List.range (seq.length - 2)).countP
          (fun i => decide (seq.getD i "" = seq.getD (i + 2) "")) : ℕ) : ℚ)) /
      ((seq.length : ℚ) - 2)) :=
  chordRepetitions_closed seq h

/-- Witness for C5 (amended) on a length-4 sequence with three penalized
positions, whose score `1 - 3/2 - 1/2... = -1` is negative (not clamped). -/
theorem C5_chord_repetitions_closed_form_witness :
    3 ≤ (["Cmaj7", "Cmaj7", "Cmaj7", "Cmaj7"] : List String).length ∧
    chordRepetitions ["Cmaj7", "Cmaj7", "Cmaj7", "Cmaj7"] = .ok (1 -
      ((((List.range ((["Cmaj7", "Cmaj7", "Cmaj7", "Cmaj7"] : List String).length - 2)).countP
          (fun i => decide ((["Cmaj7", "Cmaj7", "Cmaj7", "Cmaj7"] : List String).getD i ""
            = (["Cmaj7", "Cmaj7", "Cmaj7", "Cmaj7"] : List String).getD (i + 1) "")) : ℕ)
        + ((List.range ((["Cmaj7", "Cmaj7", "Cmaj7", "Cmaj7"] : List String).length - 2)).countP
          (fun i => decide ((["Cmaj7", "Cmaj7", "Cmaj7", "Cmaj7"] : List String).getD i ""
            = (["Cmaj7", "Cmaj7", "Cmaj7", "Cmaj7"] : List String).getD (i + 2) "")) : ℕ) : ℚ)) /
      (((["Cmaj7", "Cmaj7", "Cmaj7", "Cmaj7"] : List String).length : ℚ) - 2)) ∧
    chordRepetitions ["Cmaj7", "Cmaj7", "Cmaj7", "Cmaj7"] = .ok (-1) :=
  ⟨by decide,
    C5_chord_repetitions_closed_form ["Cmaj7", "Cmaj7", "Cmaj7", "Cmaj7"] (by decide),
    by decide⟩

/-- C6 counterexample: malformed inputs do not fail fast — the constructor
performs no validation and produces melody values: the empty note list
gives duration 0 and bar count 0, and non-positive durations are accepted
unchanged (a negative total even floors to a negative bar count). -/
theorem C6_malformed_input_counterexample :
    MelodyData.make []
      = { notes := [], duration := 0, number_of_bars := 0 } ∧
    MelodyData.make [("C5", 0)]
      = { notes := [("C5", 0)], duration := 0, number_of_bars := 0 } ∧
    MelodyData.make [("C5", -5)]
      = { notes := [("C5", -5)], duration := -5, number_of_bars := -2 } :=
  ⟨by decide, by decide, by decide⟩

/-- C6 (amended): `MelodyData` construction is total and performs no
validation whatsoever: for EVERY note list — empty, with zero or negative
durations, or well formed — it produces a melody value whose duration is
the sum of the note durations and whose bar count is the floor division of
that sum by 4. -/
theorem C6_melody_construction_total (notes : List (String × Int)) :
    (MelodyData.make notes).notes = notes ∧
    (MelodyData.make notes).duration = (notes.map Prod.snd).sum ∧
    (MelodyData.make notes).number_of_bars
      = Int.fdiv (notes.map Prod.snd).sum 4 :=
  melodyData_make_spec notes

/-- C7 counterexample: with an empty weight mapping `evaluate` does NOT
return 0.0 for any sequence — metric scores are computed before the weight
lookup, so on a two-chord sequence `ChordRepetitions` raises
`ZeroDivisionError` even though every weight would be 0. -/
theorem C7_empty_weights_counterexample :
    cfgZeroWeights.weights = [] ∧
    evaluate cfgZeroWeights ["Cmaj7", "Cmaj7"]
      = .error "ZeroDivisionError: division by zero" :=
  ⟨by decide, by decide⟩

/-- C7 (amended): whenever `evaluate` returns a value, that value is the
sum over the nine metrics of `score * weights.get(name, 0)` (absent names
contribute weight 0), and with an empty weight mapping every successful
evaluation returns 0; but `evaluate` propagates metric exceptions, so on
sequences where a metric raises (for example length 2) it returns no value
at all even with empty weights. -/
theorem C7_evaluate_weighted_sum {cfg : Config} {seq : List String} {v : ℚ}
    (h : evaluate cfg seq = .ok v) :
    ∃ s1 s2 s3 s4 s5 s6 s7 s8 s9,
      chordMelodyCongruence cfg.melody cfg.chordMappings seq = .ok s1 ∧
      chordVariety cfg.chordMappings seq = .ok s2 ∧
      harmonicFlow cfg.preferredTransitions seq = .ok s3 ∧
      functionalHarmony seq = .ok s4 ∧
      voiceLeading cfg.chordMappings seq = .ok s5 ∧
      chordRepetitions seq = .ok s6 ∧
      functionalProgressions cfg.commonProgressions seq = .ok s7 ∧
      nonDiatonicChords seq = .ok s8 ∧
      parallelFifths cfg.chordsWithParallelFifths seq = .ok s9 ∧
      v = s1 * dictGetD cfg.weights "ChordMelodyCongruence" 0
        + s2 * dictGetD cfg.weights "ChordVariety" 0
        + s3 * dictGetD cfg.weights "HarmonicFlow" 0
        + s4 * dictGetD cfg.weights "FunctionalHarmony" 0
        + s5 * dictGetD cfg.weights "VoiceLeading" 0
        + s6 * dictGetD cfg.weights "ChordRepetitions" 0
        + s7 * dictGetD cfg.weights "FunctionalProgressions" 0
        + s8 * dictGetD cfg.weights "NonDiatonicChords" 0
        + s9 * dictGetD cfg.weights "ParallelFifths" 0 ∧
      (cfg.weights = [] → v = 0) :=
  evaluate_ok_formula h

/-- Witness for C7 (amended) at an empty-weight configuration where
evaluation succeeds with value 0. -/
theorem C7_evaluate_weighted_sum_witness :
    evaluate cfgZeroWeights ["Cmaj7", "Cmaj7", "Cmaj7", "Cmaj7"] = .ok 0 ∧
    (∃ s1 s2 s3 s4 s5 s6 s7 s8 s9,
      chordMelodyCongruence cfgZeroWeights.melody cfgZeroWeights.chordMappings
        ["Cmaj7", "Cmaj7", "Cmaj7", "Cmaj7"] = .ok s1 ∧
      chordVariety cfgZeroWeights.chordMappings
        ["Cmaj7", "Cmaj7", "Cmaj7", "Cmaj7"] = .ok s2 ∧
      harmonicFlow cfgZeroWeights.preferredTransitions
        ["Cmaj7", "Cmaj7", "Cmaj7", "Cmaj7"] = .ok s3 ∧
      functionalHarmony ["Cmaj7", "Cmaj7", "Cmaj7", "Cmaj7"] = .ok s4 ∧
      voiceLeading cfgZeroWeights.chordMappings
        ["Cmaj7", "Cmaj7", "Cmaj7", "Cmaj7"] = .ok s5 ∧
      chordRepetitions ["Cmaj7", "Cmaj7", "Cmaj7", "Cmaj7"] = .ok s6 ∧
      functionalProgressions cfgZeroWeights.commonProgressions
        ["Cmaj7", "Cmaj7", "Cmaj7", "Cmaj7"] = .ok s7 ∧
      nonDiatonicChords ["Cmaj7", "Cmaj7", "Cmaj7", "Cmaj7"] = .ok s8 ∧
      parallelFifths cfgZeroWeights.chordsWithParallelFifths
        ["Cmaj7", "Cmaj7", "Cmaj7", "Cmaj7"] = .ok s9 ∧
      (0 : ℚ) = s1 * dictGetD cfgZeroWeights.weights "ChordMelodyCongruence" 0
        + s2 * dictGetD cfgZeroWeights.weights "ChordVariety" 0
        + s3 * dictGetD cfgZeroWeights.weights "HarmonicFlow" 0
        + s4 * dictGetD cfgZeroWeights.weights "FunctionalHarmony" 0
        + s5 * dictGetD cfgZeroWeights.weights "VoiceLeading" 0
        + s6 * dictGetD cfgZeroWeights.weights "ChordRepetitions" 0
        + s7 * dictGetD cfgZeroWeights.weights "FunctionalProgressions" 0
        + s8 * dictGetD cfgZeroWeights.weights "NonDiatonicChords" 0
        + s9 * dictGetD cfgZeroWeights.weights "ParallelFifths" 0 ∧
      (cfgZeroWeights.weights = [] → (0 : ℚ) = 0)) :=
  ⟨by decide, C7_evaluate_weighted_sum (by decide)⟩

/-- C8: for every chord sequence of length at least 3 drawn from the chord
vocabulary, `ChordVariety.calculate` lies in [0, 1], and
`ChordRepetitions.calculate` and `ParallelFifths.calculate` are each at
most 1. -/
theorem C8_metric_bounds (mappings : List (String × List String))
    (pfs : List (String × String)) (seq : List String)
    (hlen : 3 ≤ seq.length)
    (hsub : ∀ c ∈ seq, c ∈ mappings.map Prod.fst) :
    (∃ v, chordVariety mappings seq = .ok v ∧ 0 ≤ v ∧ v ≤ 1) ∧
    (∃ v, chordRepetitions seq = .ok v ∧ v ≤ 1) ∧
    (∃ v, parallelFifths pfs seq = .ok v ∧ v ≤ 1) := by
  have hne : seq ≠ [] := by
    intro h0
    rw [h0] at hlen
    exact absurd hlen (by simp)
  exact ⟨chordVariety_bounds mappings seq hne hsub,
    chordRepetitions_le_one seq hlen,
    parallelFifths_le_one pfs seq (by omega)⟩

/-- Witness for C8 over the default vocabulary. -/
theorem C8_metric_bounds_witness :
    (3 ≤ (["Cmaj7", "Cmaj7", "Dm7"] : List String).length ∧
      (∀ c ∈ (["Cmaj7", "Cmaj7", "Dm7"] : List String),
        c ∈ defaultChordMappings.map Prod.fst)) ∧
    ((∃ v, chordVariety defaultChordMappings ["Cmaj7", "Cmaj7", "Dm7"]
        = .ok v ∧ 0 ≤ v ∧ v ≤ 1) ∧
    (∃ v, chordRepetitions ["Cmaj7", "Cmaj7", "Dm7"] = .ok v ∧ v ≤ 1) ∧
    (∃ v, parallelFifths defaultParallelFifths ["Cmaj7", "Cmaj7", "Dm7"]
        = .ok v ∧ v ≤ 1)) :=
  ⟨⟨by decide, by decide⟩,
    C8_metric_bounds defaultChordMappings defaultParallelFifths
      ["Cmaj7", "Cmaj7", "Dm7"] (by decide) (by decide)⟩

/-- C9: for an even population size, one generation step preserves the
population size exactly: selection returns `population_size` parents and
the crossover/mutation pairing loop returns `population_size` children. -/
theorem C9_population_size_preserved (cfg : Config) (src : RSource)
    (pos : ℕ) (pop parents newPop : List (List String)) (pos1 pos2 : ℕ)
    (hev : cfg.populationSize % 2 = 0)
    (hsel : selectParents cfg src pos pop = .ok (parents, pos1))
    (hnew : createNewPopulation cfg src parents pos1 = .ok (newPop, pos2)) :
    parents.length = cfg.populationSize ∧
    newPop.length = cfg.populationSize := by
  obtain ⟨hplen, _⟩ := selectParents_ok hsel
  refine ⟨hplen, ?_⟩
  unfold createNewPopulation at hnew
  have hcount := newPopLoop_ok_count hnew
  rw [List.length_range'] at hcount
  simp only [List.length_nil] at hcount
  omega

/-- Witness for C9 on a concrete single-generation step of `cfgTiny`. -/
theorem C9_population_size_preserved_witness :
    (cfgTiny.populationSize % 2 = 0 ∧
      selectParents cfgTiny srcZero 0
        [["Cmaj7", "Cmaj7", "Cmaj7", "Cmaj7"],
         ["Cmaj7", "Cmaj7", "Cmaj7", "Cmaj7"]]
        = .ok ([["Cmaj7", "Cmaj7", "Cmaj7", "Cmaj7"],
                ["Cmaj7", "Cmaj7", "Cmaj7", "Cmaj7"]], 2) ∧
      createNewPopulation cfgTiny srcZero
        [["Cmaj7", "Cmaj7", "Cmaj7", "Cmaj7"],
         ["Cmaj7", "Cmaj7", "Cmaj7", "Cmaj7"]] 2
        = .ok ([["Cmaj7", "Cmaj7", "Cmaj7", "Cmaj7"],
                ["Cmaj7", "Cmaj7", "Cmaj7", "Cmaj7"]], 6)) ∧
    ([["Cmaj7", "Cmaj7", "Cmaj7", "Cmaj7"],
      ["Cmaj7", "Cmaj7", "Cmaj7", "Cmaj7"]] : List (List String)).length
        = cfgTiny.populationSize ∧
    ([["Cmaj7", "Cmaj7", "Cmaj7", "Cmaj7"],
      ["Cmaj7", "Cmaj7", "Cmaj7", "Cmaj7"]] : List (List String)).length
        = cfgTiny.populationSize :=
  ⟨⟨by decide, by decide, by decide⟩,
    C9_population_size_preserved cfgTiny srcZero 0
      [["Cmaj7", "Cmaj7", "Cmaj7", "Cmaj7"],
       ["Cmaj7", "Cmaj7", "Cmaj7", "Cmaj7"]]
      [["Cmaj7", "Cmaj7", "Cmaj7", "Cmaj7"],
       ["Cmaj7", "Cmaj7", "Cmaj7", "Cmaj7"]]
      [["Cmaj7", "Cmaj7", "Cmaj7", "Cmaj7"],
       ["Cmaj7", "Cmaj7", "Cmaj7", "Cmaj7"]] 2 6
      (by decide) (by decide) (by decide)⟩

/-- C10: over the default vocabulary, `NonDiatonicChords.calculate` counts
exactly occurrences of the six chords C7, D7, E7, A7, Dm7b5 and Gmin7
(each contributing `1/length`); the vocabulary's diminished chord `Eº7`
never contributes, because the metric's hard-coded set contains the
distinct mojibake string `EÂº7` instead. -/
theorem C10_non_diatonic_default_vocabulary (seq : List String)
    (hne : seq ≠ [])
    (hsub : ∀ c ∈ seq, c ∈ defaultChordMappings.map Prod.fst) :
    nonDiatonicChords seq = .ok
      (((seq.countP (fun c =>
          decide (c ∈ ["C7", "D7", "E7", "A7", "Dm7b5", "Gmin7"]))) : ℕ)
        / (seq.length : ℚ)) ∧
    "Eº7" ∉ nonDiatonicSet :=
  nonDiatonicChords_default seq hne hsub

/-- Witness for C10: in `["Eº7", "C7", "Eº7"]` only `C7` is counted, so
the score is `1/3`. -/
theorem C10_non_diatonic_default_vocabulary_witness :
    ((["Eº7", "C7", "Eº7"] : List String) ≠ [] ∧
      (∀ c ∈ (["Eº7", "C7", "Eº7"] : List String),
        c ∈ defaultChordMappings.map Prod.fst)) ∧
    (nonDiatonicChords ["Eº7", "C7", "Eº7"] = .ok
      ((((["Eº7", "C7", "Eº7"] : List String).countP (fun c =>
          decide (c ∈ ["C7", "D7", "E7", "A7", "Dm7b5", "Gmin7"]))) : ℕ)
        / (((["Eº7", "C7", "Eº7"] : List String).length : ℚ))) ∧
      "Eº7" ∉ nonDiatonicSet) ∧
    nonDiatonicChords ["Eº7", "C7", "Eº7"] = .ok (1 / 3) :=
  ⟨⟨by decide, by decide⟩,
    C10_non_diatonic_default_vocabulary ["Eº7", "C7", "Eº7"]
      (by decide) (by decide),
    by decide⟩
